import Mathlib

/-!
Shallow embedding of `src/fitt/tools/utils/reader.py` (the `Reader` class:
ingestion of decoded FIT messages into a timestamp-keyed record store, a
sticky forward-fill cache, and the seven-stage derived-field pipeline).

Modelling conventions:
* Python numeric values (floats/ints stored in records) are modelled as `ℚ`.
* Timestamps (`datetime` keys with sub-second resolution) are modelled as `ℚ`
  seconds; `timedelta(seconds=w)` subtraction becomes subtraction of `w`.
* A Python `dict` is an insertion-ordered association list with unique keys:
  lookup returns the first (= only) binding, assignment replaces an existing
  binding in place or appends a fresh one at the end, `del` removes the
  binding.  `Rec` (field name → value) and `Store` (timestamp → record) use
  this representation; `aget`/`aset` implement the dict operations.
* `geo_distance` (from `geo.py`, an external pure function over floats) and
  `math.sqrt` are taken as parameters (`geo`, `sq`) of the stages that call
  them; no claim below depends on their numeric values.
* Python exceptions that escape a stage (the unguarded `math.sqrt` domain
  error / zero division in `_calculate_grade`) are modelled by a `Bool` error
  flag: `(store, true)` is the state at the moment the exception propagates,
  and later stages do not run.
-/

namespace Fitt

/-- First-match association-list lookup: Python `d[k]` / `d.get(k, None)`. -/
def aget {κ β : Type} [DecidableEq κ] : List (κ × β) → κ → Option β
  | [], _ => none
  | kv :: d, k => if kv.1 = k then some kv.2 else aget d k

/-- Association-list assignment: Python `d[k] = v` (replace the existing
binding in place, else append at the end — dict insertion order). -/
def aset {κ β : Type} [DecidableEq κ] : List (κ × β) → κ → β → List (κ × β)
  | [], k, v => [(k, v)]
  | kv :: d, k, v => if kv.1 = k then (k, v) :: d else kv :: aset d k v

/-- Association-list removal of the (unique, in dict-shaped lists) binding:
Python `del d[k]`. -/
def aerase {κ β : Type} [DecidableEq κ] : List (κ × β) → κ → List (κ × β)
  | [], _ => []
  | kv :: d, k => if kv.1 = k then d else kv :: aerase d k

/-- A record: one Python dict mapping field names to numeric values. -/
abbrev Rec := List (String × ℚ)

/-- `Rec` lookup (`record.get(key, None)` / `key in record`). -/
def Rec.get (r : Rec) (k : String) : Option ℚ := aget r k

/-- `Rec` assignment (`record[key] = v`). -/
def Rec.set (r : Rec) (k : String) (v : ℚ) : Rec := aset r k v

/-- `Rec` deletion (`del record[key]`). -/
def Rec.erase (r : Rec) (k : String) : Rec := aerase r k

/-- Python `dict.update(data)`: apply every binding of `d` in order. -/
def Rec.update (r d : Rec) : Rec := d.foldl (fun acc kv => Rec.set acc kv.1 kv.2) r

/-- `record[k] = v` guarded on presence of the source value (the pervasive
`if 'f' in message: record_data['k'] = message['f']` pattern). -/
def optSet (d : Rec) (k : String) (o : Option ℚ) : Rec :=
  match o with
  | some v => Rec.set d k v
  | none => d

/-- The store `self._data`: timestamp-keyed dict of records. -/
abbrev Store := List (ℚ × Rec)

/-- `self._data.get(t)`. -/
def Store.get (s : Store) (t : ℚ) : Option Rec := aget s t

/-- `if timestamp not in self._data: self._data[timestamp] = {}`. -/
def Store.getOrCreate (s : Store) (t : ℚ) : Store :=
  if (Store.get s t).isSome then s else aset s t []

/-- In-place mutation of the record at timestamp `t`. -/
def Store.modify : Store → ℚ → (Rec → Rec) → Store
  | [], _, _ => []
  | p :: s, t, f => if p.1 = t then (p.1, f p.2) :: s else p :: Store.modify s t f

/-- In-place mutation of the record at position `i` of the traversal (the
window stages mutate the `i`-th record object of their `seq` list). -/
def Store.modify2 : Store → Nat → (Rec → Rec) → Store
  | [], _, _ => []
  | p :: s, 0, f => (p.1, f p.2) :: s
  | p :: s, i + 1, f => p :: Store.modify2 s i f

/-- A raw message field value as delivered by the decoder: a Python `int`, or
some other (non-`int`) numeric value.  `isinstance(x, int)` distinguishes the
two. -/
inductive MVal where
  | int (n : ℤ)
  | num (q : ℚ)
deriving DecidableEq

/-- The numeric value carried by a message field. -/
def MVal.toQ : MVal → ℚ
  | .int n => (n : ℚ)
  | .num q => q

/-- `180.0 / 2**31`: semicircles-to-degrees conversion factor. -/
def SEMICIRCLES_FACTOR : ℚ := 180 / 2 ^ 31

/-- `SMOOTH_ALTITUDE_TIME_WINDOW = 5` (seconds). -/
def SMOOTH_ALTITUDE_TIME_WINDOW : ℚ := 5

/-- `MAX_GRADE_WINDOW = 50` (meters). -/
def MAX_GRADE_WINDOW : ℚ := 50

/-- `MIN_GRADE_WINDOW = 20` (meters). -/
def MIN_GRADE_WINDOW : ℚ := 20

/-- The fields of a RECORD message that `_handle_record_message` reads
(each `none` when the field is absent from the message dict). -/
structure RecordMsg where
  timestamp : Option ℚ := none
  position_lat : Option ℚ := none
  position_long : Option ℚ := none
  enhanced_altitude : Option ℚ := none
  altitude : Option ℚ := none
  heart_rate : Option ℚ := none
  cadence : Option ℚ := none
  distance : Option ℚ := none
  enhanced_speed : Option ℚ := none
  speed : Option ℚ := none
  power : Option ℚ := none
  grade : Option ℚ := none
  temperature : Option ℚ := none
  accumulated_power : Option ℚ := none
  left_right_balance : Option ℚ := none
  gps_accuracy : Option ℚ := none
  vertical_speed : Option ℚ := none
  calories : Option ℚ := none
  left_torque_effectiveness : Option ℚ := none
  right_torque_effectiveness : Option ℚ := none
  left_pedal_smoothness : Option ℚ := none
  right_pedal_smoothness : Option ℚ := none
  combined_pedal_smoothness : Option ℚ := none
  enhanced_respiration_rate : Option ℚ := none
  grit : Option ℚ := none
  flow : Option ℚ := none
  core_temperature : Option ℚ := none

/-- The `record_data` dict built by `_handle_record_message`, in source order.
`Option.or` renders the enhanced-beats-base preference
(`enhanced_altitude`/`altitude`, `enhanced_speed`/`speed`). -/
def recordData (m : RecordMsg) (t : ℚ) : Rec :=
  let d : Rec := Rec.set [] "timestamp" t
  let d := optSet d "position_lat" (m.position_lat.map (fun v => v * SEMICIRCLES_FACTOR))
  let d := optSet d "position_long" (m.position_long.map (fun v => v * SEMICIRCLES_FACTOR))
  let d := optSet d "altitude" (m.enhanced_altitude.or m.altitude)
  let d := optSet d "heart_rate" m.heart_rate
  let d := optSet d "cadence" m.cadence
  let d := optSet d "distance" m.distance
  let d := optSet d "speed" (m.enhanced_speed.or m.speed)
  let d := optSet d "power" m.power
  let d := optSet d "grade" m.grade
  let d := optSet d "temperature" m.temperature
  let d := optSet d "accumulated_power" m.accumulated_power
  let d := optSet d "left_right_balance" m.left_right_balance
  let d := optSet d "gps_accuracy" m.gps_accuracy
  let d := optSet d "vertical_speed" m.vertical_speed
  let d := optSet d "calories" m.calories
  let d := optSet d "left_torque_effectiveness" m.left_torque_effectiveness
  let d := optSet d "right_torque_effectiveness" m.right_torque_effectiveness
  let d := optSet d "left_pedal_smoothness" m.left_pedal_smoothness
  let d := optSet d "right_pedal_smoothness" m.right_pedal_smoothness
  let d := optSet d "combined_pedal_smoothness" m.combined_pedal_smoothness
  let d := optSet d "respiration_rate" m.enhanced_respiration_rate
  let d := optSet d "grit" m.grit
  let d := optSet d "flow" m.flow
  let d := optSet d "core_temperature" m.core_temperature
  d

/-- Reader state: `self._data` and `self._cache`. -/
structure St where
  data : Store
  cache : Rec

/-- `for key, value in self._cache.items(): if key not in record: record[key] = value`. -/
def cacheFill (r : Rec) (c : Rec) : Rec :=
  c.foldl (fun acc kv => if (Rec.get acc kv.1).isSome then acc else Rec.set acc kv.1 kv.2) r

/-- `_handle_record_message`. -/
def handleRecordMessage (st : St) (m : RecordMsg) : St :=
  match m.timestamp with
  | none => st
  | some t =>
    let s := Store.getOrCreate st.data t
    let s := Store.modify s t (fun r => Rec.update r (recordData m t))
    let s := Store.modify s t (fun r => cacheFill r st.cache)
    { data := s, cache := st.cache }

/-- The fields of an EVENT message that `_handle_event_message` reads. -/
structure EventMsg where
  timestamp : Option ℚ := none
  event : Option String := none
  event_type : Option String := none
  front_gear_num : Option MVal := none
  front_gear : Option MVal := none
  rear_gear_num : Option MVal := none
  rear_gear : Option MVal := none

/-- `isinstance(x, int) and 0 < x < 255`: the accepted gear value, if any. -/
def gearAccept : Option MVal → Option ℚ
  | some (.int n) => if 0 < n ∧ n < 255 then some ((n : ℤ) : ℚ) else none
  | _ => none

/-- The `data` dict built by `_handle_event_message` (both gear branches are
independent `if`s in the source). -/
def eventData (m : EventMsg) : Rec :=
  let d : Rec := []
  let d :=
    if m.event = some "front_gear_change" ∧ m.event_type = some "marker" then
      optSet (optSet d "front_gear_num" (gearAccept m.front_gear_num))
        "front_gear" (gearAccept m.front_gear)
    else d
  let d :=
    if m.event = some "rear_gear_change" ∧ m.event_type = some "marker" then
      optSet (optSet d "rear_gear_num" (gearAccept m.rear_gear_num))
        "rear_gear" (gearAccept m.rear_gear)
    else d
  d

/-- `_handle_event_message`. -/
def handleEventMessage (st : St) (m : EventMsg) : St :=
  match m.timestamp, m.event, m.event_type with
  | some t, some _, some _ =>
    let s := Store.getOrCreate st.data t
    let d := eventData m
    { data := Store.modify s t (fun r => Rec.update r d),
      cache := Rec.update st.cache d }
  | _, _, _ => st

/-- The fields of a CLIMB_PRO message that `_handle_climb_message` reads. -/
structure ClimbMsg where
  timestamp : Option ℚ := none
  climb_pro_event : Option String := none
  climb_number : Option MVal := none

/-- Recovery stamping: `for t, r in self.data: if t < timestamp:
r['active_climb'] = climb` (iteration order does not matter — every strictly
earlier record gets the same write). -/
def stampClimb (s : Store) (t v : ℚ) : Store :=
  s.map (fun p => if p.1 < t then (p.1, Rec.set p.2 "active_climb" v) else p)

/-- `_handle_climb_message`. -/
def handleClimbMessage (st : St) (m : ClimbMsg) : St :=
  match m.timestamp, m.climb_pro_event, m.climb_number with
  | some t, some ev, some num =>
    let s := Store.getOrCreate st.data t
    if ev = "start" then
      { data := Store.modify s t (fun r => Rec.set r "active_climb" (MVal.toQ num)),
        cache := Rec.set st.cache "active_climb" (MVal.toQ num) }
    else if ev = "complete" then
      let s2 :=
        if (Rec.get st.cache "active_climb").isSome then s
        else stampClimb s t (MVal.toQ num)
      let s3 := Store.modify s2 t
        (fun r => if (Rec.get r "active_climb").isSome then Rec.erase r "active_climb" else r)
      let c2 :=
        if (Rec.get st.cache "active_climb").isSome then Rec.erase st.cache "active_climb"
        else st.cache
      { data := s3, cache := c2 }
    else
      { data := s, cache := st.cache }
  | _, _, _ => st

/-- A decoded message, dispatched by `mesg_listener` on its kind. -/
inductive Msg where
  | sample (m : RecordMsg)
  | event (m : EventMsg)
  | climb (m : ClimbMsg)

/-- One `mesg_listener` call. -/
def handleMessage (st : St) : Msg → St
  | .sample m => handleRecordMessage st m
  | .event m => handleEventMessage st m
  | .climb m => handleClimbMessage st m

/-- Ingestion of the whole decode sequence, in decode order, from fresh state. -/
def ingest (msgs : List Msg) : St := msgs.foldl handleMessage { data := [], cache := [] }

/-- The `data` property's ordering: `sorted(self._data.keys())` traversal.
Since dict keys are unique, sorting the association list by key yields exactly
the sorted `(timestamp, record)` traversal. -/
def sortedData (s : Store) : Store := List.insertionSort (fun a b => a.1 ≤ b.1) s

/-- `statistics.mean` (exact rational arithmetic mean). -/
def mean (l : List ℚ) : ℚ := l.sum / l.length

/-- `in_window` inside `_sliding_window`: the neighbour's `key` value must be
present and within half the window size of the centre's value. -/
def inWindow (key : String) (size : ℚ) (target : ℚ) (r : Rec) : Bool :=
  match Rec.get r key with
  | none => false
  | some v => |v - target| ≤ size / 2

/-- One window of `_sliding_window` for the centre at index `i` of `seq`:
expand left and right through neighbours passing `in_window`, halting at the
first failure; `none` when the centre lacks the key (centre skipped). -/
def windowAt (size : ℚ) (key : String) (seq : List Rec) (i : Nat) : Option (List Rec) :=
  match seq[i]? with
  | none => none
  | some cur =>
    match Rec.get cur key with
    | none => none
    | some v =>
      some ((((seq.take i).reverse.takeWhile (inWindow key size v)).reverse)
        ++ cur :: (seq.drop (i + 1)).takeWhile (inWindow key size v))

/-- `_calculate_activity_time`: `time = timestamp - first_timestamp` seconds. -/
def calculateActivityTime (l : Store) : Store :=
  match l with
  | [] => []
  | (t0, _) :: _ => l.map (fun p => (p.1, Rec.set p.2 "time" (p.1 - t0)))

/-- One record of `_calculate_distance`: update the running state
`(last position, total great-circle distance)`, then write `track_distance`
and (when the message supplied none) `distance`. -/
def distanceStep (geo : ℚ → ℚ → ℚ → ℚ → ℚ) (acc : Option (ℚ × ℚ) × ℚ) (p : ℚ × Rec) :
    (Option (ℚ × ℚ) × ℚ) × (ℚ × Rec) :=
  let acc2 :=
    match Rec.get p.2 "position_lat", Rec.get p.2 "position_long" with
    | some lat, some lon =>
      match acc.1 with
      | some ll => (some (lat, lon), acc.2 + geo ll.1 ll.2 lat lon)
      | none => (some (lat, lon), acc.2)
    | _, _ => acc
  let r := Rec.set p.2 "track_distance" acc2.2
  let r := if (Rec.get r "distance").isSome then r else Rec.set r "distance" acc2.2
  (acc2, (p.1, r))

/-- `_calculate_distance`, iterated over the traversal. -/
def calcDistGo (geo : ℚ → ℚ → ℚ → ℚ → ℚ) : (Option (ℚ × ℚ) × ℚ) → Store → Store
  | _, [] => []
  | acc, p :: rest =>
    let st := distanceStep geo acc p
    st.2 :: calcDistGo geo st.1 rest

/-- `_calculate_distance`. -/
def calculateDistance (geo : ℚ → ℚ → ℚ → ℚ → ℚ) (l : Store) : Store :=
  calcDistGo geo (none, 0) l

/-- `_calculate_smooth_altitude`, processing centre `i` on the live store
(the window generator holds references to the live records, so writes made at
earlier centres are visible — they touch only `smooth_altitude`, which the
windows never read). -/
def calcSmoothGo : Nat → Nat → Store → Store
  | 0, _, s => s
  | fuel + 1, i, s =>
    let s2 :=
      match windowAt SMOOTH_ALTITUDE_TIME_WINDOW "time" (s.map Prod.snd) i with
      | none => s
      | some w =>
        let alts := w.filterMap (fun r => Rec.get r "altitude")
        if 0 < alts.length then
          Store.modify2 s i (fun r => Rec.set r "smooth_altitude" (mean alts))
        else s
    calcSmoothGo fuel (i + 1) s2

/-- `_calculate_smooth_altitude`. -/
def calculateSmoothAltitude (l : Store) : Store := calcSmoothGo l.length 0 l

/-- The record mutation of one `_calculate_speed` iteration: when a previous
`(time, distance)` pair exists and the time delta is positive, write
`track_speed` and — only if absent — `speed`. -/
def speedUpd (last : Option (ℚ × ℚ)) (d tm : ℚ) (r : Rec) : Rec :=
  match last with
  | some lt =>
    if 0 < tm - lt.1 then
      let sp := (d - lt.2) / (tm - lt.1)
      let r2 := Rec.set r "track_speed" sp
      if (Rec.get r2 "speed").isSome then r2 else Rec.set r2 "speed" sp
    else r
  | none => r

/-- `_calculate_speed`, carrying `(last_time, last_distance)`. -/
def calcSpeedGo : Option (ℚ × ℚ) → Store → Store
  | _, [] => []
  | last, (t, r) :: rest =>
    match Rec.get r "distance", Rec.get r "time" with
    | some d, some tm => (t, speedUpd last d tm r) :: calcSpeedGo (some (tm, d)) rest
    | _, _ => (t, r) :: calcSpeedGo last rest

/-- `_calculate_speed`. -/
def calculateSpeed (l : Store) : Store := calcSpeedGo none l

/-- The three rolling-average writes of `_calculate_power_rolling_averages`
for one record, given the accumulated `(timestamp, power)` dict `pw`
(already including this record's own power sample). -/
def powerFields (pw : List (ℚ × ℚ)) (t : ℚ) (r : Rec) : Rec :=
  let p3 := (pw.filter (fun kv => t - 3 < kv.1)).map Prod.snd
  let p10 := (pw.filter (fun kv => t - 10 < kv.1)).map Prod.snd
  let p30 := (pw.filter (fun kv => t - 30 < kv.1)).map Prod.snd
  let r1 := if 0 < p3.length then Rec.set r "power3s" (mean p3) else r
  let r2 := if 0 < p10.length then Rec.set r1 "power10s" (mean p10) else r1
  if 0 < p30.length then Rec.set r2 "power30s" (mean p30) else r2

/-- `_calculate_power_rolling_averages`, carrying the `power` dict and
pruning it to the trailing 30 seconds after each record. -/
def calcPowerGo : List (ℚ × ℚ) → Store → Store
  | _, [] => []
  | pw, (t, r) :: rest =>
    let pw1 :=
      match Rec.get r "power" with
      | some p => aset pw t p
      | none => pw
    (t, powerFields pw1 t r) :: calcPowerGo (pw1.filter (fun kv => t - 30 < kv.1)) rest

/-- `_calculate_power_rolling_averages`. -/
def calculatePowerRollingAverages (l : Store) : Store := calcPowerGo [] l

/-- Outcome of processing one grade centre: leave the record alone, raise an
unguarded exception (`math.sqrt` of a negative radicand, or the zero division
when the radicand is zero), or write a grade value. -/
inductive GradeStep where
  | skip
  | raise
  | write (g : ℚ)
deriving DecidableEq

/-- The pairs `(r[dist_key], r[alt_key])` collected from a grade window
(`altitudes` in the source). -/
def gradePairs (w : List Rec) : List (ℚ × ℚ) :=
  w.filterMap (fun r =>
    match Rec.get r "distance", Rec.get r "smooth_altitude" with
    | some z, some y => some (z, y)
    | _, _ => none)

/-- The body of `_calculate_grade` after the window's `altitudes` list is
built: edge-margin guards, then `sqrt(z² − y²)` — which raises (is not
guarded) when the radicand is ≤ 0 — then the grade write.  An empty
`altitudes` list would be an `IndexError`, also a raise (unreachable for real
centres, which contribute their own pair). -/
def gradeDecision (sq : ℚ → ℚ) (dist : ℚ) (pairs : List (ℚ × ℚ)) : GradeStep :=
  match pairs.head?, pairs.getLast? with
  | some p1, some p2 =>
    if dist - p1.1 < MIN_GRADE_WINDOW / 2 then .skip
    else if p2.1 - dist < MIN_GRADE_WINDOW / 2 then .skip
    else
      let z := p2.1 - p1.1
      let y := p2.2 - p1.2
      if z ^ 2 - y ^ 2 ≤ 0 then .raise
      else .write (y / sq (z ^ 2 - y ^ 2) * 100)
  | _, _ => .raise

/-- One centre of `_calculate_grade` on the live record sequence. -/
def gradeStepAt (sq : ℚ → ℚ) (seq : List Rec) (i : Nat) : GradeStep :=
  match windowAt MAX_GRADE_WINDOW "distance" seq i with
  | none => .skip
  | some w =>
    match seq[i]? with
    | none => .skip
    | some cur =>
      match Rec.get cur "distance", Rec.get cur "smooth_altitude" with
      | some dist, some _ => gradeDecision sq dist (gradePairs w)
      | _, _ => .skip

/-- `_calculate_grade`, processing centres in order on the live store; a
`raise` aborts the stage (and the pipeline) with the writes made so far. -/
def calcGradeGo (sq : ℚ → ℚ) : Nat → Nat → Store → Store × Bool
  | 0, _, s => (s, false)
  | fuel + 1, i, s =>
    match gradeStepAt sq (s.map Prod.snd) i with
    | .skip => calcGradeGo sq fuel (i + 1) s
    | .raise => (s, true)
    | .write g => calcGradeGo sq fuel (i + 1) (Store.modify2 s i (fun r => Rec.set r "grade" g))

/-- `_calculate_grade`; the `Bool` is true when the stage raised. -/
def calculateGrade (sq : ℚ → ℚ) (l : Store) : Store × Bool := calcGradeGo sq l.length 0 l

/-- The record mutation of one `_calculate_vertical_speed` iteration: write
`vertical_speed` only if not already supplied and a previous pair exists with
a positive time delta. -/
def vertUpd (last : Option (ℚ × ℚ)) (alt tm : ℚ) (r : Rec) : Rec :=
  if (Rec.get r "vertical_speed").isSome then r
  else
    match last with
    | some lt =>
      if 0 < tm - lt.1 then Rec.set r "vertical_speed" ((alt - lt.2) / (tm - lt.1)) else r
    | none => r

/-- `_calculate_vertical_speed`, carrying `(last_time, last_altitude)`. -/
def calcVertGo : Option (ℚ × ℚ) → Store → Store
  | _, [] => []
  | last, (t, r) :: rest =>
    match Rec.get r "altitude", Rec.get r "time" with
    | some alt, some tm => (t, vertUpd last alt tm r) :: calcVertGo (some (tm, alt)) rest
    | _, _ => (t, r) :: calcVertGo last rest

/-- `_calculate_vertical_speed`. -/
def calculateVerticalSpeed (l : Store) : Store := calcVertGo none l

/-- `_generate_calculated_fields`: the seven ordered stages over the sorted
traversal.  Each stage reads and writes the same timestamp-keyed store; no
stage adds or removes timestamps, so materialising the sorted traversal once
is equivalent to re-sorting at each stage.  A grade raise propagates: the
vertical-speed stage does not run and the error flag is true. -/
def generateCalculatedFields (geo : ℚ → ℚ → ℚ → ℚ → ℚ) (sq : ℚ → ℚ) (s : Store) :
    Store × Bool :=
  let l := sortedData s
  let l := calculateActivityTime l
  let l := calculateDistance geo l
  let l := calculateSmoothAltitude l
  let l := calculateSpeed l
  let l := calculatePowerRollingAverages l
  match calculateGrade sq l with
  | (l2, true) => (l2, true)
  | (l2, false) => (calculateVerticalSpeed l2, false)

/-- What one decoder run delivered: the messages passed to `mesg_listener`,
the error list returned by `decoder.read`, and whether reading threw. -/
structure DecodeOutcome where
  msgs : List Msg
  errors : List String
  threw : Bool

/-- `Reader.__init__` observable state: `self.ok`, `self._data`, `self._cache`,
and whether the derivation pipeline raised. -/
structure Reader where
  ok : Bool
  data : Store
  cache : Rec
  raised : Bool

/-- `Reader.__init__` + `_load_fit_file`: messages are ingested as they are
delivered; `ok` is false on a thrown decode or a non-empty error list, and
only when `ok` holds does `_generate_calculated_fields` run. -/
def readerInit (geo : ℚ → ℚ → ℚ → ℚ → ℚ) (sq : ℚ → ℚ) (d : DecodeOutcome) : Reader :=
  let st := ingest d.msgs
  let ok := !d.threw && d.errors.isEmpty
  if ok then
    match generateCalculatedFields geo sq st.data with
    | (s, err) => { ok := true, data := s, cache := st.cache, raised := err }
  else
    { ok := false, data := st.data, cache := st.cache, raised := false }

/-! Projections and statement-level views.

`_calculate_grade` writes only `grade` while its windows read only
`distance` and `smooth_altitude`, so each centre's computation is determined
by the `(distance, smooth_altitude)` projection of the live records.  The
`...P` definitions below recompute a grade step from that projection alone;
they are proved pointwise equal to the live-store computation and are what
makes reasoning about the in-place writes tractable. -/

/-- The two fields `_calculate_grade` reads from a record. -/
def distAlt (r : Rec) : Option ℚ × Option ℚ :=
  (Rec.get r "distance", Rec.get r "smooth_altitude")

/-- The `(distance, smooth_altitude)` projection of a store's traversal. -/
def projOf (s : Store) : List (Option ℚ × Option ℚ) := (s.map Prod.snd).map distAlt

/-- `in_window` for the grade key, on the projection. -/
def pInWindow (size : ℚ) (target : ℚ) (pr : Option ℚ × Option ℚ) : Bool :=
  match pr.1 with
  | none => false
  | some v => |v - target| ≤ size / 2

/-- `windowAt` for the grade key, on the projection. -/
def pWindowAt (size : ℚ) (P : List (Option ℚ × Option ℚ)) (i : Nat) :
    Option (List (Option ℚ × Option ℚ)) :=
  match P[i]? with
  | none => none
  | some cur =>
    match cur.1 with
    | none => none
    | some v =>
      some ((((P.take i).reverse.takeWhile (pInWindow size v)).reverse)
        ++ cur :: (P.drop (i + 1)).takeWhile (pInWindow size v))

/-- `gradePairs` on the projection. -/
def pGradePairs (w : List (Option ℚ × Option ℚ)) : List (ℚ × ℚ) :=
  w.filterMap (fun pr =>
    match pr.1, pr.2 with
    | some z, some y => some (z, y)
    | _, _ => none)

/-- `gradeStepAt` on the projection. -/
def gradeStepAtP (sq : ℚ → ℚ) (P : List (Option ℚ × Option ℚ)) (i : Nat) : GradeStep :=
  match pWindowAt MAX_GRADE_WINDOW P i with
  | none => .skip
  | some w =>
    match P[i]? with
    | none => .skip
    | some pr =>
      match pr.1, pr.2 with
      | some dist, some _ => gradeDecision sq dist (pGradePairs w)
      | _, _ => .skip

/-- The `altitudes` list of the grade window centred at index `i` of `l`'s
traversal (empty when `i` is not a valid centre). -/
def gradeWindowPairs (l : Store) (i : Nat) : List (ℚ × ℚ) :=
  match windowAt MAX_GRADE_WINDOW "distance" (l.map Prod.snd) i with
  | none => []
  | some w => gradePairs w

/-- All `distance` values present in a store's records. -/
def storeDistances (l : Store) : List ℚ := l.filterMap (fun p => Rec.get p.2 "distance")

/-- The `(timestamp, power)` pairs of the records carrying `power`, in
traversal order (the contents of the stage's `power` dict before pruning). -/
def prefixPowers (l : Store) : List (ℚ × ℚ) :=
  l.filterMap (fun p => (Rec.get p.2 "power").map (fun v => (p.1, v)))

/-- The power values of the trailing wall-clock window ending at (and
including) `t`, with the strict lower bound `t - w < member timestamp`. -/
def trailingPowers (l : Store) (t w : ℚ) : List ℚ :=
  (l.filter (fun p => decide (p.1 ≤ t) && decide (t - w < p.1))).filterMap
    (fun p => Rec.get p.2 "power")

/-- The `(timestamp, value-of-field-k)` view of a store: what a stage that
never writes `k` preserves. -/
def keyView (k : String) (l : Store) : List (ℚ × Option ℚ) :=
  l.map (fun p => (p.1, Rec.get p.2 k))

/-- Re-supplying only the originally-raw fields to a derived series: each
timestamp of the derived store gets back its pre-pipeline record from `orig`. -/
def resupplyRaw (derived orig : Store) : Store :=
  derived.map (fun p => (p.1, (Store.get orig p.1).getD []))

/-- The last binding of `k` in `d` (what a sequence of dict assignments
leaves behind): specification device for `Rec.update`. -/
def lastVal : Rec → String → Option ℚ
  | [], _ => none
  | kv :: d, k => (lastVal d k).or (if kv.1 = k then some kv.2 else none)

/-! Concrete inputs used by the counterexamples and witnesses. -/

/-- A stand-in great-circle distance function (the claims hold for every
non-negative `geo`). -/
def geo0 : ℚ → ℚ → ℚ → ℚ → ℚ := fun _ _ _ _ => 0

/-- A stand-in square-root function (no claim depends on its values). -/
def sq0 : ℚ → ℚ := fun q => q

/-- Five records, 10 m apart, flat except for a 50 m altitude jump over the
last 10 m: the centre at distance 20 passes both edge margins and has
`|Δaltitude| = 50 ≥ 40 = |Δdistance|` over its window. -/
def gl0 : Store :=
  [(0, [("distance", 0), ("smooth_altitude", 0)]),
   (1, [("distance", 10), ("smooth_altitude", 0)]),
   (2, [("distance", 20), ("smooth_altitude", 0)]),
   (3, [("distance", 30), ("smooth_altitude", 0)]),
   (4, [("distance", 40), ("smooth_altitude", 50)])]

/-- Power samples of value `10×t` at integer seconds `t = 0..10`. -/
def pl0 : Store :=
  (List.range 11).map (fun t => ((t : ℚ), [("timestamp", (t : ℚ)), ("power", 10 * (t : ℚ))]))

/-- A front-gear-change event message at `t = 5` with gear index 2. -/
def em0 : EventMsg :=
  { timestamp := some 5, event := some "front_gear_change", event_type := some "marker",
    front_gear_num := some (.int 2) }

/-- A decode run that ingested one record message and then reported an error. -/
def dc0 : DecodeOutcome :=
  { msgs := [Msg.sample { timestamp := some 0 }], errors := ["record truncated"], threw := false }

/-- One empty record at `t = 50`, empty cache. -/
def st5 : St := { data := [(50, [])], cache := [] }

/-- A climb "complete" event at `t = 100`, climb number 7, with no prior
"start". -/
def m5 : ClimbMsg :=
  { timestamp := some 100, climb_pro_event := some "complete", climb_number := some (.int 7) }

/-- A front-gear-change event carrying gear index 254 (accepted) and tooth
count 255 (rejected). -/
def m6 : EventMsg :=
  { timestamp := some 0, event := some "front_gear_change", event_type := some "marker",
    front_gear_num := some (.int 254), front_gear := some (.int 255) }

/-- Two records 5 m apart: both lie within 10 m of the window edges. -/
def l7 : Store :=
  [(0, [("distance", 0), ("smooth_altitude", 100)]),
   (1, [("distance", 5), ("smooth_altitude", 200)])]

/-- A store with one positioned record and one bare record. -/
def c8s : Store := [(0, [("position_lat", 1), ("position_long", 2)]), (1, [])]

/-- An unsorted two-record store with distinct timestamps. -/
def c9s : Store := [(1, [("power", 100)]), (0, [])]

/-- Reader state whose sticky cache holds a gear value. -/
def st10 : St := { data := [], cache := [("front_gear_num", 2)] }

/-- A record message at `t = 3` carrying only power. -/
def m10 : RecordMsg := { timestamp := some 3, power := some 150 }

/-- Fresh reader state (empty store, empty cache). -/
def st0 : St := { data := [], cache := [] }

/-! ## Association-list and record lemmas -/

theorem aget_aset_self {κ β : Type} [DecidableEq κ] (d : List (κ × β)) (k : κ) (v : β) :
    aget (aset d k v) k = some v := by
  induction d with
  | nil => simp [aset, aget]
  | cons kv d ih =>
    by_cases h : kv.1 = k <;> simp [aset, aget, h, ih]

theorem aget_aset_ne {κ β : Type} [DecidableEq κ] (d : List (κ × β)) (k k' : κ) (v : β)
    (h : k ≠ k') : aget (aset d k v) k' = aget d k' := by
  induction d with
  | nil => simp [aset, aget, h]
  | cons kv d ih =>
    by_cases hk : kv.1 = k
    · simp [aset, hk, aget, h]
    · simp [aset, hk, aget, ih]

theorem aget_eq_none_of_not_mem {κ β : Type} [DecidableEq κ] (d : List (κ × β)) (k : κ)
    (h : k ∉ d.map Prod.fst) : aget d k = none := by
  induction d with
  | nil => rfl
  | cons kv d ih =>
    simp only [List.map_cons, List.mem_cons] at h
    push_neg at h
    have hne : ¬ kv.1 = k := Ne.symm h.1
    simp [aget, hne, ih h.2]

theorem aget_aerase_self {κ β : Type} [DecidableEq κ] (d : List (κ × β)) (k : κ)
    (h : (d.map Prod.fst).Nodup) : aget (aerase d k) k = none := by
  induction d with
  | nil => rfl
  | cons kv d ih =>
    simp only [List.map_cons, List.nodup_cons] at h
    by_cases hk : kv.1 = k
    · simpa [aerase, hk] using aget_eq_none_of_not_mem d k (hk ▸ h.1)
    · simp [aerase, hk, aget, ih h.2]

theorem Rec.get_set_self (r : Rec) (k : String) (v : ℚ) :
    Rec.get (Rec.set r k v) k = some v := aget_aset_self r k v

theorem Rec.get_set_ne (r : Rec) (k k' : String) (v : ℚ) (h : k ≠ k') :
    Rec.get (Rec.set r k v) k' = Rec.get r k' := aget_aset_ne r k k' v h

theorem Rec.get_erase_self (r : Rec) (k : String) (h : (r.map Prod.fst).Nodup) :
    Rec.get (Rec.erase r k) k = none := aget_aerase_self r k h

theorem Rec.get_optSet_ne (d : Rec) (k k' : String) (o : Option ℚ) (h : k ≠ k') :
    Rec.get (optSet d k o) k' = Rec.get d k' := by
  cases o with
  | none => rfl
  | some v => exact Rec.get_set_ne d k k' v h

theorem get_update (r d : Rec) (k : String) :
    Rec.get (Rec.update r d) k = (lastVal d k).or (Rec.get r k) := by
  induction d generalizing r with
  | nil => simp [Rec.update, lastVal]
  | cons kv d ih =>
    show Rec.get (Rec.update (Rec.set r kv.1 kv.2) d) k = _
    rw [ih]
    by_cases h : kv.1 = k
    · subst h
      simp [lastVal, Rec.get_set_self, Option.or_assoc]
    · simp [lastVal, h, Rec.get_set_ne r kv.1 k kv.2 h]

theorem get_cacheFill (r c : Rec) (k : String) :
    Rec.get (cacheFill r c) k = (Rec.get r k).or (Rec.get c k) := by
  induction c generalizing r with
  | nil => simp [cacheFill, Rec.get, aget]
  | cons kv c ih =>
    show Rec.get (cacheFill (if (Rec.get r kv.1).isSome then r else Rec.set r kv.1 kv.2) c) k = _
    rw [ih]
    by_cases h : kv.1 = k
    · subst h
      have hc : Rec.get (kv :: c) kv.1 = some kv.2 := by simp [Rec.get, aget]
      rw [hc]
      cases hv : Rec.get r kv.1 with
      | some v =>
        rw [if_pos (by simp [hv]), hv]
        rfl
      | none =>
        rw [if_neg (by simp [hv]), Rec.get_set_self]
        rfl
    · have hr : Rec.get (if (Rec.get r kv.1).isSome then r else Rec.set r kv.1 kv.2) k
          = Rec.get r k := by
        split
        · rfl
        · exact Rec.get_set_ne r kv.1 k kv.2 h
      have hc : Rec.get (kv :: c) k = Rec.get c k := by simp [Rec.get, aget, h]
      rw [hr, hc]

theorem lastVal_optSet_ne (d : Rec) (k k' : String) (o : Option ℚ) (h : k ≠ k') :
    lastVal (optSet d k o) k' = lastVal d k' := by
  cases o with
  | none => rfl
  | some v =>
    show lastVal (Rec.set d k v) k' = _
    induction d with
    | nil => simp [Rec.set, aset, lastVal, h]
    | cons kv d ih =>
      by_cases hk : kv.1 = k
      · simp [Rec.set, aset, hk, lastVal, h]
      · simp only [Rec.set, aset, hk, if_false, lastVal]
        rw [show aset d k v = Rec.set d k v from rfl, ih]

/-! ## Store lemmas -/

theorem Store.get_getOrCreate_self (s : Store) (t : ℚ) :
    Store.get (Store.getOrCreate s t) t = some ((Store.get s t).getD []) := by
  unfold Store.getOrCreate
  cases hv : Store.get s t with
  | some r => simp [hv]
  | none => simpa [hv] using aget_aset_self s t []

theorem Store.get_getOrCreate_ne (s : Store) (t t' : ℚ) (h : t' ≠ t) :
    Store.get (Store.getOrCreate s t) t' = Store.get s t' := by
  unfold Store.getOrCreate
  split
  · rfl
  · exact aget_aset_ne s t t' [] fun hh => h hh.symm

theorem Store.get_modify_self (s : Store) (t : ℚ) (f : Rec → Rec) :
    Store.get (Store.modify s t f) t = (Store.get s t).map f := by
  induction s with
  | nil => rfl
  | cons p s ih =>
    by_cases h : p.1 = t
    · simp [Store.modify, h, Store.get, aget]
    · simp only [Store.modify, if_neg h, Store.get, aget, h, if_false]
      exact ih

theorem Store.get_modify_ne (s : Store) (t t' : ℚ) (f : Rec → Rec) (h : t' ≠ t) :
    Store.get (Store.modify s t f) t' = Store.get s t' := by
  induction s with
  | nil => rfl
  | cons p s ih =>
    by_cases hp : p.1 = t
    · have hne : ¬ p.1 = t' := by
        intro hh
        exact h (by rw [← hh, hp])
      have hne2 : ¬ t = t' := fun hh => h hh.symm
      simp [Store.modify, hp, Store.get, aget, hne, hne2]
    · simp only [Store.modify, if_neg hp, Store.get, aget]
      by_cases hq : p.1 = t'
      · simp [hq]
      · simp only [hq, if_false]
        exact ih

theorem Store.get_stampClimb (s : Store) (t v t' : ℚ) :
    Store.get (stampClimb s t v) t' =
      (Store.get s t').map (fun r => if t' < t then Rec.set r "active_climb" v else r) := by
  induction s with
  | nil => rfl
  | cons p s ih =>
    by_cases hp : p.1 = t'
    · by_cases hlt : p.1 < t
      · simp [stampClimb, hlt, Store.get, aget, hp, hp ▸ hlt]
      · simp [stampClimb, hlt, Store.get, aget, hp, hp ▸ hlt]
    · by_cases hlt : p.1 < t
      · simpa [stampClimb, hlt, Store.get, aget, hp] using ih
      · simpa [stampClimb, hlt, Store.get, aget, hp] using ih

/-! ## Ingestion-handler facts -/

theorem lastVal_recordData_timestamp (m : RecordMsg) (t : ℚ) :
    lastVal (recordData m t) "timestamp" = some t := by
  simp +decide [recordData, lastVal_optSet_ne, lastVal, Rec.set, aset]

theorem handleRecordMessage_data (st : St) (m : RecordMsg) (t : ℚ) (h : m.timestamp = some t) :
    (handleRecordMessage st m).data
      = Store.modify
          (Store.modify (Store.getOrCreate st.data t) t
            (fun r => Rec.update r (recordData m t))) t
          (fun r => cacheFill r st.cache) := by
  simp only [handleRecordMessage, h]

theorem handleRecordMessage_cache (st : St) (m : RecordMsg) (t : ℚ) (h : m.timestamp = some t) :
    (handleRecordMessage st m).cache = st.cache := by
  simp only [handleRecordMessage, h]

theorem handleRecordMessage_get (st : St) (m : RecordMsg) (t : ℚ) (h : m.timestamp = some t)
    (k : String) :
    (Store.get (handleRecordMessage st m).data t).map (fun r => Rec.get r k)
      = some ((Rec.get (Rec.update ((Store.get st.data t).getD []) (recordData m t)) k).or
          (Rec.get st.cache k)) := by
  rw [handleRecordMessage_data st m t h, Store.get_modify_self, Store.get_modify_self,
    Store.get_getOrCreate_self]
  simp [Function.comp, get_cacheFill]

theorem handleRecordMessage_get_ne (st : St) (m : RecordMsg) (t : ℚ) (h : m.timestamp = some t)
    (t' : ℚ) (h' : t' ≠ t) :
    Store.get (handleRecordMessage st m).data t' = Store.get st.data t' := by
  rw [handleRecordMessage_data st m t h, Store.get_modify_ne _ _ _ _ h',
    Store.get_modify_ne _ _ _ _ h', Store.get_getOrCreate_ne _ _ _ h']

theorem handleEventMessage_get_ne (st : St) (m : EventMsg) (t : ℚ) (h : m.timestamp = some t)
    (t' : ℚ) (h' : t' ≠ t) :
    Store.get (handleEventMessage st m).data t' = Store.get st.data t' := by
  cases hev : m.event with
  | none => simp only [handleEventMessage, h, hev]
  | some ev =>
    cases hty : m.event_type with
    | none => simp only [handleEventMessage, h, hev, hty]
    | some ty =>
      simp only [handleEventMessage, h, hev, hty]
      rw [Store.get_modify_ne _ _ _ _ h', Store.get_getOrCreate_ne _ _ _ h']

theorem handleClimbMessage_start_get_ne (st : St) (m : ClimbMsg) (t : ℚ)
    (h : m.timestamp = some t) (hev : m.climb_pro_event = some "start")
    (t' : ℚ) (h' : t' ≠ t) :
    Store.get (handleClimbMessage st m).data t' = Store.get st.data t' := by
  cases hn : m.climb_number with
  | none => simp only [handleClimbMessage, h, hev, hn]
  | some num =>
    simp only [handleClimbMessage, h, hev, hn, eq_self_iff_true, if_true]
    rw [Store.get_modify_ne _ _ _ _ h', Store.get_getOrCreate_ne _ _ _ h']

/-- C2, counterexample: the gear-change event handler at `t = 5` creates a
record (the lookup succeeds) that carries no `timestamp` field, refuting
"every Record, once created by any ingestion handler, contains a timestamp
field". -/
theorem event_record_no_timestamp_cex :
    (Store.get (handleEventMessage st0 em0).data 5).map (fun r => Rec.get r "timestamp")
      = some none := by decide

/-- C2 (amended): a record created or updated by the sample-message handler
always carries `timestamp` (equal to its key); records created by the
event/climb handlers are keyed by their timestamp but need not carry a
`timestamp` field. -/
theorem record_message_sets_timestamp (st : St) (m : RecordMsg) (t : ℚ)
    (h : m.timestamp = some t) :
    (Store.get (handleRecordMessage st m).data t).map (fun r => Rec.get r "timestamp")
      = some (some t) := by
  rw [handleRecordMessage_get st m t h, get_update, lastVal_recordData_timestamp]
  rfl

/-- C2 witness: the amended theorem applied to the concrete message `m10`
(timestamp 3) from the empty state. -/
theorem record_message_sets_timestamp_witness :
    m10.timestamp = some 3 ∧
    (Store.get (handleRecordMessage st0 m10).data 3).map (fun r => Rec.get r "timestamp")
      = some (some 3) :=
  ⟨rfl, record_message_sets_timestamp st0 m10 3 rfl⟩

/-- C3, counterexample: on a decode run that ingested one record and then
reported an error, `ok` is false — but the partially ingested store is still
non-empty and readable through the `data` traversal, refuting "no partial
TimeSeries is exposed to the caller". -/
theorem decode_failure_partial_data_cex :
    (readerInit geo0 sq0 dc0).ok = false ∧ (readerInit geo0 sq0 dc0).data ≠ [] := by
  decide

/-- C3 (amended): on a non-empty decode error list or a thrown decode, the
success flag is false and no derivation stage is attempted (the store is
exactly the raw ingested one) — but the partially ingested records remain
reachable through the `data` traversal, so the caller must check `ok`. -/
theorem decode_failure_flag_and_no_derivation (geo : ℚ → ℚ → ℚ → ℚ → ℚ) (sq : ℚ → ℚ)
    (d : DecodeOutcome) (h : d.errors ≠ [] ∨ d.threw = true) :
    (readerInit geo sq d).ok = false ∧ (readerInit geo sq d).data = (ingest d.msgs).data := by
  have hok : (!d.threw && d.errors.isEmpty) = false := by
    rcases h with h | h
    · have : d.errors.isEmpty = false := by
        cases he : d.errors with
        | nil => exact absurd he h
        | cons a l => rfl
      simp [this]
    · simp [h]
  refine ⟨?_, ?_⟩ <;> simp [readerInit, hok]

/-- C3 witness: the amended theorem applied to the concrete failing decode
outcome `dc0`. -/
theorem decode_failure_flag_and_no_derivation_witness :
    (dc0.errors ≠ [] ∨ dc0.threw = true) ∧
    ((readerInit geo0 sq0 dc0).ok = false ∧
      (readerInit geo0 sq0 dc0).data = (ingest dc0.msgs).data) :=
  ⟨Or.inl (by decide), decode_failure_flag_and_no_derivation geo0 sq0 dc0 (Or.inl (by decide))⟩

/-- C10 (confirmed): sticky forward-fill follows decode order.  When a sample
message is processed it leaves the cache unchanged, touches no record at any
other timestamp, and the record at its timestamp resolves every field first
from the merged prior-record/message data and otherwise from the cache as it
stands at that decode step; a gear-change or climb-start event touches no
record other than the one at its own timestamp, so it never reaches samples
decoded earlier (at other timestamps), while every later-decoded sample
inherits from the updated cache. -/
theorem sticky_forward_fill_decode_order (st : St) (m : RecordMsg) (t : ℚ)
    (h : m.timestamp = some t) :
    (handleRecordMessage st m).cache = st.cache ∧
    (∀ t', t' ≠ t → Store.get (handleRecordMessage st m).data t' = Store.get st.data t') ∧
    (∀ k, (Store.get (handleRecordMessage st m).data t).map (fun r => Rec.get r k)
        = some ((Rec.get (Rec.update ((Store.get st.data t).getD []) (recordData m t)) k).or
            (Rec.get st.cache k))) ∧
    (∀ (st' : St) (em : EventMsg) (u : ℚ), em.timestamp = some u →
        ∀ v, v ≠ u → Store.get (handleEventMessage st' em).data v = Store.get st'.data v) ∧
    (∀ (st' : St) (cm : ClimbMsg) (u : ℚ), cm.timestamp = some u →
        cm.climb_pro_event = some "start" →
        ∀ v, v ≠ u → Store.get (handleClimbMessage st' cm).data v = Store.get st'.data v) := by
  refine ⟨handleRecordMessage_cache st m t h, ?_, ?_, ?_, ?_⟩
  · intro t' h'
    exact handleRecordMessage_get_ne st m t h t' h'
  · intro k
    exact handleRecordMessage_get st m t h k
  · intro st' em u hu v hv
    exact handleEventMessage_get_ne st' em u hu v hv
  · intro st' cm u hu hev v hv
    exact handleClimbMessage_start_get_ne st' cm u hu hev v hv

theorem handleEventMessage_get_self (st : St) (m : EventMsg) (t : ℚ) (e ty : String)
    (ht : m.timestamp = some t) (hev : m.event = some e) (hty : m.event_type = some ty)
    (k : String) :
    (Store.get (handleEventMessage st m).data t).map (fun r => Rec.get r k)
      = some ((lastVal (eventData m) k).or
          (Rec.get ((Store.get st.data t).getD []) k)) := by
  simp only [handleEventMessage, ht, hev, hty]
  rw [Store.get_modify_self, Store.get_getOrCreate_self]
  simp [get_update]

theorem handleEventMessage_cache_get (st : St) (m : EventMsg) (t : ℚ) (e ty : String)
    (ht : m.timestamp = some t) (hev : m.event = some e) (hty : m.event_type = some ty)
    (k : String) :
    Rec.get (handleEventMessage st m).cache k
      = (lastVal (eventData m) k).or (Rec.get st.cache k) := by
  simp only [handleEventMessage, ht, hev, hty]
  exact get_update st.cache (eventData m) k

theorem lastVal_eventData_front_num (m : EventMsg) (hev : m.event = some "front_gear_change")
    (hty : m.event_type = some "marker") :
    lastVal (eventData m) "front_gear_num" = gearAccept m.front_gear_num := by
  cases ha : gearAccept m.front_gear_num <;> cases hb : gearAccept m.front_gear <;>
    simp +decide [eventData, hev, hty, ha, hb, optSet, Rec.set, aset, lastVal]

theorem lastVal_eventData_front (m : EventMsg) (hev : m.event = some "front_gear_change")
    (hty : m.event_type = some "marker") :
    lastVal (eventData m) "front_gear" = gearAccept m.front_gear := by
  cases ha : gearAccept m.front_gear_num <;> cases hb : gearAccept m.front_gear <;>
    simp +decide [eventData, hev, hty, ha, hb, optSet, Rec.set, aset, lastVal]

theorem lastVal_eventData_rear_num (m : EventMsg) (hev : m.event = some "rear_gear_change")
    (hty : m.event_type = some "marker") :
    lastVal (eventData m) "rear_gear_num" = gearAccept m.rear_gear_num := by
  cases ha : gearAccept m.rear_gear_num <;> cases hb : gearAccept m.rear_gear <;>
    simp +decide [eventData, hev, hty, ha, hb, optSet, Rec.set, aset, lastVal]

theorem lastVal_eventData_rear (m : EventMsg) (hev : m.event = some "rear_gear_change")
    (hty : m.event_type = some "marker") :
    lastVal (eventData m) "rear_gear" = gearAccept m.rear_gear := by
  cases ha : gearAccept m.rear_gear_num <;> cases hb : gearAccept m.rear_gear <;>
    simp +decide [eventData, hev, hty, ha, hb, optSet, Rec.set, aset, lastVal]

/-- C6 (confirmed): for a front/rear gear-change marker event, each gear
index / tooth-count field is written — to the record at the event's timestamp
and to the sticky cache — exactly when `gearAccept` yields a value, and
`gearAccept` accepts precisely the integers strictly between 0 and 255;
rejected values leave record and cache lookups unchanged. -/
theorem gear_validation_spec (st : St) (m : EventMsg) (t : ℚ)
    (ht : m.timestamp = some t) (hty : m.event_type = some "marker") :
    (∀ v : Option MVal, (gearAccept v).isSome = true ↔
        ∃ n : ℤ, v = some (.int n) ∧ 0 < n ∧ n < 255) ∧
    (m.event = some "front_gear_change" →
      ((Store.get (handleEventMessage st m).data t).map (fun r => Rec.get r "front_gear_num")
          = some ((gearAccept m.front_gear_num).or
              (Rec.get ((Store.get st.data t).getD []) "front_gear_num")) ∧
        (Store.get (handleEventMessage st m).data t).map (fun r => Rec.get r "front_gear")
          = some ((gearAccept m.front_gear).or
              (Rec.get ((Store.get st.data t).getD []) "front_gear")) ∧
        Rec.get (handleEventMessage st m).cache "front_gear_num"
          = (gearAccept m.front_gear_num).or (Rec.get st.cache "front_gear_num") ∧
        Rec.get (handleEventMessage st m).cache "front_gear"
          = (gearAccept m.front_gear).or (Rec.get st.cache "front_gear"))) ∧
    (m.event = some "rear_gear_change" →
      ((Store.get (handleEventMessage st m).data t).map (fun r => Rec.get r "rear_gear_num")
          = some ((gearAccept m.rear_gear_num).or
              (Rec.get ((Store.get st.data t).getD []) "rear_gear_num")) ∧
        (Store.get (handleEventMessage st m).data t).map (fun r => Rec.get r "rear_gear")
          = some ((gearAccept m.rear_gear).or
              (Rec.get ((Store.get st.data t).getD []) "rear_gear")) ∧
        Rec.get (handleEventMessage st m).cache "rear_gear_num"
          = (gearAccept m.rear_gear_num).or (Rec.get st.cache "rear_gear_num") ∧
        Rec.get (handleEventMessage st m).cache "rear_gear"
          = (gearAccept m.rear_gear).or (Rec.get st.cache "rear_gear"))) := by
  refine ⟨?_, ?_, ?_⟩
  · intro v
    cases v with
    | none => simp [gearAccept]
    | some mv =>
      cases mv with
      | int n =>
        by_cases hb : 0 < n ∧ n < 255
        · simp [gearAccept, hb]
        · simp [gearAccept, hb]
      | num q => simp [gearAccept]
  · intro hev
    refine ⟨?_, ?_, ?_, ?_⟩
    · rw [handleEventMessage_get_self st m t _ _ ht hev hty,
        lastVal_eventData_front_num m hev hty]
    · rw [handleEventMessage_get_self st m t _ _ ht hev hty,
        lastVal_eventData_front m hev hty]
    · rw [handleEventMessage_cache_get st m t _ _ ht hev hty,
        lastVal_eventData_front_num m hev hty]
    · rw [handleEventMessage_cache_get st m t _ _ ht hev hty,
        lastVal_eventData_front m hev hty]
  · intro hev
    refine ⟨?_, ?_, ?_, ?_⟩
    · rw [handleEventMessage_get_self st m t _ _ ht hev hty,
        lastVal_eventData_rear_num m hev hty]
    · rw [handleEventMessage_get_self st m t _ _ ht hev hty,
        lastVal_eventData_rear m hev hty]
    · rw [handleEventMessage_cache_get st m t _ _ ht hev hty,
        lastVal_eventData_rear_num m hev hty]
    · rw [handleEventMessage_cache_get st m t _ _ ht hev hty,
        lastVal_eventData_rear m hev hty]

/-- C6 witness: the theorem applied to the concrete event `m6` from the empty
state: gear index 254 is accepted (written to record and cache), tooth count
255 is rejected (absent from both). -/
theorem gear_validation_spec_witness :
    m6.timestamp = some 0 ∧ m6.event = some "front_gear_change" ∧
    (Store.get (handleEventMessage st0 m6).data 0).map (fun r => Rec.get r "front_gear_num")
      = some (some 254) ∧
    (Store.get (handleEventMessage st0 m6).data 0).map (fun r => Rec.get r "front_gear")
      = some none ∧
    Rec.get (handleEventMessage st0 m6).cache "front_gear_num" = some 254 ∧
    Rec.get (handleEventMessage st0 m6).cache "front_gear" = none := by
  have h := (gear_validation_spec st0 m6 0 rfl rfl).2.1 rfl
  refine ⟨rfl, rfl, ?_, ?_, ?_, ?_⟩
  · rw [h.1]; decide
  · rw [h.2.1]; decide
  · rw [h.2.2.1]; decide
  · rw [h.2.2.2]; decide

/-! ## Grade-stage lemmas

`_calculate_grade` writes only `grade` while its windows read only `distance`
and `smooth_altitude`; the lemmas below make that non-interference formal by
factoring each centre's step through the `(distance, smooth_altitude)`
projection of the live store. -/

theorem inWindow_eq_pInWindow (sz v : ℚ) (r : Rec) :
    inWindow "distance" sz v r = pInWindow sz v (distAlt r) := rfl

theorem distAlt_set_grade (r : Rec) (g : ℚ) : distAlt (Rec.set r "grade" g) = distAlt r := by
  unfold distAlt
  rw [Rec.get_set_ne _ _ _ _ (by decide), Rec.get_set_ne _ _ _ _ (by decide)]

theorem takeWhile_map_distAlt (sz v : ℚ) (L : List Rec) :
    (L.map distAlt).takeWhile (pInWindow sz v)
      = (L.takeWhile (inWindow "distance" sz v)).map distAlt := by
  rw [List.takeWhile_map]
  have hp : (pInWindow sz v ∘ distAlt) = inWindow "distance" sz v := by
    funext r
    exact (inWindow_eq_pInWindow sz v r).symm
  rw [hp]

theorem pleft_eq (sz v : ℚ) (seq : List Rec) (i : Nat) :
    (((seq.map distAlt).take i).reverse.takeWhile (pInWindow sz v)).reverse
      = (((seq.take i).reverse.takeWhile (inWindow "distance" sz v)).reverse).map distAlt := by
  rw [← List.map_take, ← List.map_reverse, takeWhile_map_distAlt, List.map_reverse]

theorem pright_eq (sz v : ℚ) (seq : List Rec) (i : Nat) :
    ((seq.map distAlt).drop (i + 1)).takeWhile (pInWindow sz v)
      = ((seq.drop (i + 1)).takeWhile (inWindow "distance" sz v)).map distAlt := by
  rw [← List.map_drop, takeWhile_map_distAlt]


theorem windowAt_map (sz : ℚ) (seq : List Rec) (i : Nat) :
    pWindowAt sz (seq.map distAlt) i = (windowAt sz "distance" seq i).map (List.map distAlt) := by
  unfold windowAt pWindowAt
  rw [List.getElem?_map]
  cases hc : seq[i]? with
  | none => rfl
  | some cur =>
    simp only [Option.map_some']
    have e1 : (distAlt cur).1 = Rec.get cur "distance" := rfl
    rw [e1]
    cases hv : Rec.get cur "distance" with
    | none => rfl
    | some v =>
      simp only [Option.map_some']
      rw [pleft_eq, pright_eq]
      simp

theorem pGradePairs_map (w : List Rec) : pGradePairs (w.map distAlt) = gradePairs w := by
  unfold pGradePairs gradePairs
  rw [List.filterMap_map]
  congr 1

theorem gradeStepAt_eq (sq : ℚ → ℚ) (seq : List Rec) (i : Nat) :
    gradeStepAtP sq (seq.map distAlt) i = gradeStepAt sq seq i := by
  unfold gradeStepAt gradeStepAtP
  rw [windowAt_map]
  cases hw : windowAt MAX_GRADE_WINDOW "distance" seq i with
  | none => rfl
  | some w =>
    simp only [Option.map_some']
    rw [List.getElem?_map]
    cases hc : seq[i]? with
    | none => rfl
    | some cur =>
      simp only [Option.map_some']
      have e1 : (distAlt cur).1 = Rec.get cur "distance" := rfl
      have e2 : (distAlt cur).2 = Rec.get cur "smooth_altitude" := rfl
      rw [e1, e2]
      cases h1 : Rec.get cur "distance" <;> cases h2 : Rec.get cur "smooth_altitude" <;>
        simp [pGradePairs_map]

theorem projOf_cons (p : ℚ × Rec) (s : Store) : projOf (p :: s) = distAlt p.2 :: projOf s := rfl

theorem projOf_modify2 (s : Store) (c : Nat) (f : Rec → Rec)
    (hf : ∀ r, distAlt (f r) = distAlt r) :
    projOf (Store.modify2 s c f) = projOf s := by
  induction s generalizing c with
  | nil => rfl
  | cons p s ih =>
    cases c with
    | zero => simp [Store.modify2, projOf_cons, hf]
    | succ c =>
      show projOf (p :: Store.modify2 s c f) = _
      rw [projOf_cons, projOf_cons, ih c]

theorem getElem?_modify2_ne (s : Store) (c i : Nat) (f : Rec → Rec) (h : c ≠ i) :
    (Store.modify2 s c f)[i]? = s[i]? := by
  induction s generalizing c i with
  | nil => rfl
  | cons p s ih =>
    cases c with
    | zero =>
      cases i with
      | zero => exact absurd rfl h
      | succ i => simp [Store.modify2]
    | succ c =>
      cases i with
      | zero => simp [Store.modify2]
      | succ i =>
        simpa [Store.modify2] using ih c i (fun hh => h (by rw [hh]))

theorem calcGradeGo_getElem_of_skip (sq : ℚ → ℚ) (P : List (Option ℚ × Option ℚ)) (i : Nat)
    (hskip : gradeStepAtP sq P i = GradeStep.skip) :
    ∀ fuel c s, projOf s = P → (calcGradeGo sq fuel c s).1[i]? = s[i]? := by
  intro fuel
  induction fuel with
  | zero => intro c s _; rfl
  | succ fuel ih =>
    intro c s hP
    have hstep : gradeStepAt sq (s.map Prod.snd) c = gradeStepAtP sq P c := by
      rw [← gradeStepAt_eq]
      show gradeStepAtP sq (projOf s) c = _
      rw [hP]
    simp only [calcGradeGo]
    cases hst : gradeStepAt sq (s.map Prod.snd) c with
    | skip => exact ih (c + 1) s hP
    | raise => rfl
    | write g =>
      by_cases hc : c = i
      · subst hc
        rw [hstep, hskip] at hst
        exact absurd hst (by simp)
      · have hP2 : projOf (Store.modify2 s c (fun r => Rec.set r "grade" g)) = P := by
          rw [projOf_modify2 s c _ (fun r => distAlt_set_grade r g)]
          exact hP
        rw [ih (c + 1) _ hP2, getElem?_modify2_ne s c i _ hc]

theorem calcGradeGo_flag_raise (sq : ℚ → ℚ) (P : List (Option ℚ × Option ℚ)) :
    ∀ fuel c s, projOf s = P →
      (∃ j, c ≤ j ∧ j < c + fuel ∧ gradeStepAtP sq P j = GradeStep.raise) →
      (calcGradeGo sq fuel c s).2 = true := by
  intro fuel
  induction fuel with
  | zero =>
    intro c s _ ⟨j, h1, h2, _⟩
    omega
  | succ fuel ih =>
    intro c s hP ⟨j, h1, h2, h3⟩
    have hstep : gradeStepAt sq (s.map Prod.snd) c = gradeStepAtP sq P c := by
      rw [← gradeStepAt_eq]
      show gradeStepAtP sq (projOf s) c = _
      rw [hP]
    simp only [calcGradeGo]
    cases hst : gradeStepAt sq (s.map Prod.snd) c with
    | skip =>
      refine ih (c + 1) s hP ⟨j, ?_, by omega, h3⟩
      rcases Nat.eq_or_lt_of_le h1 with h | h
      · exfalso
        rw [hstep, h, h3] at hst
        cases hst
      · omega
    | raise => rfl
    | write g =>
      have hP2 : projOf (Store.modify2 s c (fun r => Rec.set r "grade" g)) = P := by
        rw [projOf_modify2 s c _ (fun r => distAlt_set_grade r g)]
        exact hP
      refine ih (c + 1) _ hP2 ⟨j, ?_, by omega, h3⟩
      rcases Nat.eq_or_lt_of_le h1 with h | h
      · exfalso
        rw [hstep, h, h3] at hst
        cases hst
      · omega

theorem calcGradeGo_flag_of_true (sq : ℚ → ℚ) (P : List (Option ℚ × Option ℚ)) :
    ∀ fuel c s, projOf s = P → (calcGradeGo sq fuel c s).2 = true →
      ∃ j, c ≤ j ∧ j < c + fuel ∧ gradeStepAtP sq P j = GradeStep.raise := by
  intro fuel
  induction fuel with
  | zero =>
    intro c s _ h
    exact absurd h (by simp [calcGradeGo])
  | succ fuel ih =>
    intro c s hP h
    have hstep : gradeStepAt sq (s.map Prod.snd) c = gradeStepAtP sq P c := by
      rw [← gradeStepAt_eq]
      show gradeStepAtP sq (projOf s) c = _
      rw [hP]
    simp only [calcGradeGo] at h
    revert h
    cases hst : gradeStepAt sq (s.map Prod.snd) c with
    | skip =>
      intro h
      obtain ⟨j, h1, h2, h3⟩ := ih (c + 1) s hP h
      exact ⟨j, by omega, by omega, h3⟩
    | raise =>
      intro _
      exact ⟨c, Nat.le_refl c, by omega, by rw [← hstep, hst]⟩
    | write g =>
      intro h
      have hP2 : projOf (Store.modify2 s c (fun r => Rec.set r "grade" g)) = P := by
        rw [projOf_modify2 s c _ (fun r => distAlt_set_grade r g)]
        exact hP
      obtain ⟨j, h1, h2, h3⟩ := ih (c + 1) _ hP2 h
      exact ⟨j, by omega, by omega, h3⟩

theorem windowAt_mem_subset (sz : ℚ) (key : String) (seq : List Rec) (i : Nat) (w : List Rec)
    (hw : windowAt sz key seq i = some w) : ∀ r ∈ w, r ∈ seq := by
  unfold windowAt at hw
  split at hw
  · cases hw
  · rename_i cur hc
    split at hw
    · cases hw
    · rename_i v hv
      injection hw with hw
      subst hw
      intro r hr
      rcases List.mem_append.1 hr with hl | hcr
      · have h2 := (List.takeWhile_sublist _).subset (List.mem_reverse.1 hl)
        exact (List.take_sublist i seq).subset (List.mem_reverse.1 h2)
      · rcases List.mem_cons.1 hcr with hcur | hrr
        · subst hcur
          exact List.getElem?_mem hc
        · exact (List.drop_sublist (i + 1) seq).subset ((List.takeWhile_sublist _).subset hrr)

theorem windowAt_center_mem (sz : ℚ) (key : String) (seq : List Rec) (i : Nat) (w : List Rec)
    (cur : Rec) (hw : windowAt sz key seq i = some w) (hc : seq[i]? = some cur) : cur ∈ w := by
  unfold windowAt at hw
  split at hw
  · cases hw
  · rename_i cur2 hc2
    split at hw
    · cases hw
    · rename_i v hv
      injection hw with hw
      subst hw
      rw [hc] at hc2
      injection hc2 with hc2
      subst hc2
      exact List.mem_append.2 (Or.inr (List.mem_cons_self _ _))

theorem gradePairs_mem (w : List Rec) (p : ℚ × ℚ) (hp : p ∈ gradePairs w) :
    ∃ r ∈ w, Rec.get r "distance" = some p.1 := by
  unfold gradePairs at hp
  obtain ⟨r, hr, hf⟩ := List.mem_filterMap.1 hp
  refine ⟨r, hr, ?_⟩
  revert hf
  cases h1 : Rec.get r "distance" with
  | none => intro hf; cases hf
  | some z =>
    cases h2 : Rec.get r "smooth_altitude" with
    | none => intro hf; cases hf
    | some y =>
      intro hf
      cases hf
      rfl

theorem gradePairs_center_mem (w : List Rec) (r : Rec) (hr : r ∈ w) (d a : ℚ)
    (hd : Rec.get r "distance" = some d) (ha : Rec.get r "smooth_altitude" = some a) :
    (d, a) ∈ gradePairs w := by
  unfold gradePairs
  refine List.mem_filterMap.2 ⟨r, hr, ?_⟩
  rw [hd, ha]

/-- C1, counterexample: on the concrete store `gl0` the grade stage reaches
the centre at distance 20, whose chord has `|Δaltitude| = 50 > 40 =
|Δdistance|`, and raises (flag true) — refuting "the domain error is guarded
and the grade field is simply left unset ... never raises and never aborts
the pipeline". -/
theorem grade_domain_not_guarded_cex :
    (calculateGrade sq0 gl0).2 = true ∧
    gradeStepAt sq0 (gl0.map Prod.snd) 2 = GradeStep.raise := by with_unfolding_all decide

/-- C1 (amended): the grade stage guards missing prerequisite fields and the
edge-margin cases by skipping the record, but the `sqrt` radicand is not
guarded: the stage raises — aborting the derivation pipeline with the writes
made so far — exactly when some centre's step is `raise`, i.e. when a centre
passing both margin guards has radicand `(z2−z1)² − (y2−y1)² ≤ 0`
(equivalently `|Δaltitude| ≥ |Δdistance|`). -/
theorem grade_raises_iff_radicand (sq : ℚ → ℚ) (l : Store) :
    (calculateGrade sq l).2 = true ↔
      ∃ j, j < l.length ∧ gradeStepAt sq (l.map Prod.snd) j = GradeStep.raise := by
  constructor
  · intro h
    obtain ⟨j, _, hj2, hj3⟩ := calcGradeGo_flag_of_true sq (projOf l) l.length 0 l rfl h
    refine ⟨j, by omega, ?_⟩
    rw [← gradeStepAt_eq]
    exact hj3
  · rintro ⟨j, hj, hstep⟩
    refine calcGradeGo_flag_raise sq (projOf l) l.length 0 l rfl ⟨j, Nat.zero_le j, by omega, ?_⟩
    show gradeStepAtP sq ((l.map Prod.snd).map distAlt) j = GradeStep.raise
    rw [gradeStepAt_eq]
    exact hstep

/-- C7 (confirmed): a record whose distance is within 10 m of either endpoint
of its grade window (`dist − z1 < 10` or `z2 − dist < 10` over the window's
`altitudes` pairs) is left entirely unchanged by the grade stage; and since
the window endpoints' distances are themselves record distances, the same
holds for any record within 10 m of the smallest or largest distance in the
store — in particular near the activity's start and end. -/
theorem grade_edge_exclusion (sq : ℚ → ℚ) (l : Store) (i : Nat) (t : ℚ) (r : Rec)
    (hi : l[i]? = some (t, r)) (d : ℚ) (hd : Rec.get r "distance" = some d)
    (hmargin :
      (∃ p1, (gradeWindowPairs l i).head? = some p1 ∧ d - p1.1 < 10) ∨
      (∃ p2, (gradeWindowPairs l i).getLast? = some p2 ∧ p2.1 - d < 10) ∨
      (∀ x ∈ storeDistances l, d - x < 10) ∨
      (∀ x ∈ storeDistances l, x - d < 10)) :
    (calculateGrade sq l).1[i]? = some (t, r) := by
  have h10 : MIN_GRADE_WINDOW / 2 = (10 : ℚ) := by norm_num [MIN_GRADE_WINDOW]
  have hseq : (l.map Prod.snd)[i]? = some r := by
    rw [List.getElem?_map, hi]
    rfl
  have hdec : ∀ (w : List Rec),
      windowAt MAX_GRADE_WINDOW "distance" (l.map Prod.snd) i = some w →
      ∀ a, Rec.get r "smooth_altitude" = some a →
      gradeDecision sq d (gradePairs w) = GradeStep.skip := by
    intro w hw a ha
    have hWP : gradeWindowPairs l i = gradePairs w := by
      unfold gradeWindowPairs
      rw [hw]
    have hrw : r ∈ w := windowAt_center_mem _ _ _ _ _ _ hw hseq
    have hcmem : (d, a) ∈ gradePairs w := gradePairs_center_mem w r hrw d a hd ha
    have hne : gradePairs w ≠ [] := by
      intro hnil
      rw [hnil] at hcmem
      cases hcmem
    obtain ⟨q1, hq1⟩ : ∃ q1, (gradePairs w).head? = some q1 := by
      cases hgp : gradePairs w with
      | nil => exact absurd hgp hne
      | cons x xs => exact ⟨x, rfl⟩
    obtain ⟨q2, hq2⟩ : ∃ q2, (gradePairs w).getLast? = some q2 := by
      cases hgl : (gradePairs w).getLast? with
      | none => exact absurd (List.getLast?_eq_none_iff.1 hgl) hne
      | some x => exact ⟨x, rfl⟩
    have hq1mem : q1 ∈ gradePairs w :=
      List.mem_of_mem_head? (show q1 ∈ (gradePairs w).head? from hq1)
    have hq2mem : q2 ∈ gradePairs w :=
      List.mem_of_mem_getLast? (show q2 ∈ (gradePairs w).getLast? from hq2)
    have hq1dist : q1.1 ∈ storeDistances l := by
      obtain ⟨rq, hrqw, hrqd⟩ := gradePairs_mem w q1 hq1mem
      have hrseq := windowAt_mem_subset _ _ _ _ _ hw rq hrqw
      obtain ⟨p, hpl, hpe⟩ := List.mem_map.1 hrseq
      exact List.mem_filterMap.2 ⟨p, hpl, by rw [hpe, hrqd]⟩
    have hq2dist : q2.1 ∈ storeDistances l := by
      obtain ⟨rq, hrqw, hrqd⟩ := gradePairs_mem w q2 hq2mem
      have hrseq := windowAt_mem_subset _ _ _ _ _ hw rq hrqw
      obtain ⟨p, hpl, hpe⟩ := List.mem_map.1 hrseq
      exact List.mem_filterMap.2 ⟨p, hpl, by rw [hpe, hrqd]⟩
    have hskip1 : d - q1.1 < 10 → gradeDecision sq d (gradePairs w) = GradeStep.skip := by
      intro hlt
      unfold gradeDecision
      rw [hq1, hq2]
      show (if d - q1.1 < MIN_GRADE_WINDOW / 2 then GradeStep.skip else _) = GradeStep.skip
      rw [if_pos (by rw [h10]; exact hlt)]
    have hskip2 : q2.1 - d < 10 → gradeDecision sq d (gradePairs w) = GradeStep.skip := by
      intro hlt
      unfold gradeDecision
      rw [hq1, hq2]
      show (if d - q1.1 < MIN_GRADE_WINDOW / 2 then GradeStep.skip else _) = GradeStep.skip
      by_cases h1 : d - q1.1 < MIN_GRADE_WINDOW / 2
      · rw [if_pos h1]
      · rw [if_neg h1, if_pos (by rw [h10]; exact hlt)]
    rcases hmargin with ⟨p1, hp1, hlt⟩ | ⟨p2, hp2, hlt⟩ | hall | hall
    · rw [hWP, hq1] at hp1
      injection hp1 with hp1
      exact hskip1 (hp1 ▸ hlt)
    · rw [hWP, hq2] at hp2
      injection hp2 with hp2
      exact hskip2 (hp2 ▸ hlt)
    · exact hskip1 (hall q1.1 hq1dist)
    · exact hskip2 (hall q2.1 hq2dist)
  have hstep : gradeStepAt sq (l.map Prod.snd) i = GradeStep.skip := by
    unfold gradeStepAt
    split
    · rfl
    · rename_i w hw
      split
      · rfl
      · rename_i cur hcur
        rw [hseq] at hcur
        injection hcur with hcur
        subst hcur
        rw [hd]
        cases ha : Rec.get r "smooth_altitude" with
        | none => rfl
        | some a => exact hdec w hw a ha
  have hP : gradeStepAtP sq (projOf l) i = GradeStep.skip := by
    show gradeStepAtP sq ((l.map Prod.snd).map distAlt) i = _
    rw [gradeStepAt_eq]
    exact hstep
  have hfin := calcGradeGo_getElem_of_skip sq (projOf l) i hP l.length 0 l rfl
  show (calcGradeGo sq l.length 0 l).1[i]? = some (t, r)
  rw [hfin, hi]

/-- C7 witness: the theorem applied to the concrete store `l7` at index 0:
the record at distance 0 heads its own window, so `dist − z1 = 0 < 10` and
the grade stage leaves it unchanged. -/
theorem grade_edge_exclusion_witness :
    l7[0]? = some (0, [("distance", 0), ("smooth_altitude", 100)]) ∧
    (∃ p1, (gradeWindowPairs l7 0).head? = some p1 ∧ (0 : ℚ) - p1.1 < 10) ∧
    (calculateGrade sq0 l7).1[0]? = some (0, [("distance", 0), ("smooth_altitude", 100)]) := by
  refine ⟨by with_unfolding_all decide, ⟨(0, 100), by with_unfolding_all decide,
    by with_unfolding_all decide⟩, ?_⟩
  exact grade_edge_exclusion sq0 l7 0 0 [("distance", 0), ("smooth_altitude", 100)]
    (by with_unfolding_all decide) 0 (by with_unfolding_all decide)
    (Or.inl ⟨(0, 100), by with_unfolding_all decide, by with_unfolding_all decide⟩)

/-- C5 (confirmed): a climb "complete" event with no active-climb entry in
the sticky cache stamps the event's climb id onto every record at a strictly
earlier timestamp; and in every "complete" case the `active_climb` field is
absent from the record at the completion timestamp and from the cache
afterwards. -/
theorem climb_complete_spec (st : St) (m : ClimbMsg) (t : ℚ) (num : MVal)
    (ht : m.timestamp = some t) (hev : m.climb_pro_event = some "complete")
    (hn : m.climb_number = some num)
    (hnd1 : (((Store.get st.data t).getD []).map Prod.fst).Nodup)
    (hnd2 : (st.cache.map Prod.fst).Nodup) :
    (Rec.get st.cache "active_climb" = none →
      ∀ t' r, t' < t → Store.get st.data t' = some r →
        Store.get (handleClimbMessage st m).data t'
          = some (Rec.set r "active_climb" (MVal.toQ num))) ∧
    (Store.get (handleClimbMessage st m).data t).map (fun r => Rec.get r "active_climb")
      = some none ∧
    Rec.get (handleClimbMessage st m).cache "active_climb" = none := by
  have hred : handleClimbMessage st m =
      { data := Store.modify
          (if (Rec.get st.cache "active_climb").isSome then Store.getOrCreate st.data t
            else stampClimb (Store.getOrCreate st.data t) t (MVal.toQ num)) t
          (fun r => if (Rec.get r "active_climb").isSome then Rec.erase r "active_climb" else r),
        cache := if (Rec.get st.cache "active_climb").isSome then
            Rec.erase st.cache "active_climb" else st.cache } := by
    simp +decide only [handleClimbMessage, ht, hev, hn, if_true, if_false]
  refine ⟨?_, ?_, ?_⟩
  · intro hc t' r hlt hget
    have hne : t' ≠ t := ne_of_lt hlt
    rw [hred]
    simp only [hc, Option.isSome_none, Bool.false_eq_true, if_false]
    rw [Store.get_modify_ne _ _ _ _ hne, Store.get_stampClimb,
      Store.get_getOrCreate_ne _ _ _ hne, hget]
    simp [hlt]
  · rw [hred]
    rw [Store.get_modify_self]
    have hself : Store.get
        (if (Rec.get st.cache "active_climb").isSome then Store.getOrCreate st.data t
          else stampClimb (Store.getOrCreate st.data t) t (MVal.toQ num)) t
        = some ((Store.get st.data t).getD []) := by
      split
      · exact Store.get_getOrCreate_self st.data t
      · rw [Store.get_stampClimb, Store.get_getOrCreate_self]
        simp [lt_irrefl]
    rw [hself]
    simp only [Option.map_some']
    by_cases hac : (Rec.get ((Store.get st.data t).getD []) "active_climb").isSome
    · simp only [hac, if_true]
      rw [Rec.get_erase_self _ _ hnd1]
    · simp only [hac, Bool.false_eq_true, if_false]
      simp only [Option.not_isSome_iff_eq_none] at hac
      rw [hac]
  · rw [hred]
    by_cases hcs : (Rec.get st.cache "active_climb").isSome
    · simp only [hcs, if_true]
      exact Rec.get_erase_self _ _ hnd2
    · simp only [hcs, Bool.false_eq_true, if_false]
      simpa [Option.not_isSome_iff_eq_none] using hcs

/-- C5 witness: the theorem applied to the concrete "complete" event `m5`
(t = 100, climb 7, no prior "start") over the store `st5` holding a record at
t = 50: the earlier record is stamped, and record-at-100 and cache end
without `active_climb`. -/
theorem climb_complete_spec_witness :
    m5.timestamp = some 100 ∧ Rec.get st5.cache "active_climb" = none ∧
    Store.get (handleClimbMessage st5 m5).data 50 = some [("active_climb", 7)] ∧
    (Store.get (handleClimbMessage st5 m5).data 100).map (fun r => Rec.get r "active_climb")
      = some none ∧
    Rec.get (handleClimbMessage st5 m5).cache "active_climb" = none := by
  have h := climb_complete_spec st5 m5 100 (.int 7) rfl rfl rfl (by decide) (by decide)
  refine ⟨rfl, rfl, ?_, h.2.1, h.2.2⟩
  have h50 := h.1 rfl 50 [] (by norm_num) rfl
  rw [h50]
  decide

/-! ## Power-stage lemmas -/

theorem aset_eq_append {κ β : Type} [DecidableEq κ] (d : List (κ × β)) (k : κ) (v : β)
    (h : ∀ kv ∈ d, kv.1 ≠ k) : aset d k v = d ++ [(k, v)] := by
  induction d with
  | nil => rfl
  | cons kv d ih =>
    rw [aset, if_neg (h kv (List.mem_cons_self _ _)), List.cons_append,
      ih (fun x hx => h x (List.mem_cons_of_mem _ hx))]

theorem filter_window_shift (w t0 tc : ℚ) (hw : w ≤ 30) (ht : t0 ≤ tc) (L : List (ℚ × ℚ)) :
    (L.filter (fun kv => t0 - 30 < kv.1)).filter (fun kv => tc - w < kv.1)
      = L.filter (fun kv => tc - w < kv.1) := by
  induction L with
  | nil => rfl
  | cons kv L ih =>
    by_cases h1 : tc - w < kv.1
    · have h2 : t0 - 30 < kv.1 := lt_of_le_of_lt (by linarith) h1
      simp [List.filter_cons, h1, h2, ih]
    · by_cases h2 : t0 - 30 < kv.1 <;> simp [List.filter_cons, h1, h2, ih]

theorem powerFields_prune (A B : List (ℚ × ℚ)) (t0 tc : ℚ) (ht : t0 ≤ tc) (r : Rec) :
    powerFields ((A.filter (fun kv => t0 - 30 < kv.1)) ++ B) tc r = powerFields (A ++ B) tc r := by
  unfold powerFields
  rw [List.filter_append, List.filter_append, List.filter_append, List.filter_append,
    List.filter_append, List.filter_append,
    filter_window_shift 3 t0 tc (by norm_num) ht A,
    filter_window_shift 10 t0 tc (by norm_num) ht A,
    filter_window_shift 30 t0 tc (by norm_num) ht A]

theorem prefixPowers_cons (p : ℚ × Rec) (L : Store) :
    prefixPowers (p :: L) = prefixPowers [p] ++ prefixPowers L := by
  rw [show p :: L = [p] ++ L from rfl]
  exact List.filterMap_append _ _ _

theorem calcPowerGo_spec :
    ∀ (rest : Store) (pw : List (ℚ × ℚ)),
      rest.Pairwise (fun a b => a.1 < b.1) →
      (∀ kv ∈ pw, ∀ p ∈ rest, kv.1 < p.1) →
      ∀ (i : Nat) (t : ℚ) (r : Rec), rest[i]? = some (t, r) →
        (calcPowerGo pw rest)[i]?
          = some (t, powerFields (pw ++ prefixPowers (rest.take (i + 1))) t r) := by
  intro rest
  induction rest with
  | nil =>
    intro pw _ _ i t r hi
    cases hi
  | cons hd rest ih =>
    intro pw hsort hfresh i t r hi
    obtain ⟨t0, r0⟩ := hd
    have hpw1 :
        (match Rec.get r0 "power" with
          | some p => aset pw t0 p
          | none => pw) = pw ++ prefixPowers [(t0, r0)] := by
      cases hp : Rec.get r0 "power" with
      | some p =>
        show aset pw t0 p = _
        rw [aset_eq_append pw t0 p
          (fun kv hkv => ne_of_lt (hfresh kv hkv (t0, r0) (List.mem_cons_self _ _)))]
        simp [prefixPowers, hp]
      | none =>
        show pw = _
        simp [prefixPowers, hp]
    cases i with
    | zero =>
      rw [List.getElem?_cons_zero] at hi
      injection hi with hi
      injection hi with h1 h2
      subst h1
      subst h2
      simp only [calcPowerGo]
      rw [List.getElem?_cons_zero, hpw1]
      rfl
    | succ i =>
      have hi2 : rest[i]? = some (t, r) := by rwa [List.getElem?_cons_succ] at hi
      have hsort2 : rest.Pairwise (fun a b => a.1 < b.1) := (List.pairwise_cons.1 hsort).2
      have hhead : ∀ p ∈ rest, t0 < p.1 := (List.pairwise_cons.1 hsort).1
      have hfresh2 : ∀ kv ∈ (pw ++ prefixPowers [(t0, r0)]).filter
          (fun kv => t0 - 30 < kv.1), ∀ p ∈ rest, kv.1 < p.1 := by
        intro kv hkv p hp
        have hkv2 := List.mem_of_mem_filter hkv
        rcases List.mem_append.1 hkv2 with h | h
        · exact hfresh kv h p (List.mem_cons_of_mem _ hp)
        · have hkv1 : kv.1 = t0 := by
            revert h
            unfold prefixPowers
            cases hq : Rec.get r0 "power" with
            | none => intro h; simp [hq] at h
            | some v =>
              intro h
              simp [hq] at h
              rw [h]
          rw [hkv1]
          exact hhead p hp
      have ht0t : t0 < t := hhead (t, r) (List.getElem?_mem hi2)
      have hrec := ih ((pw ++ prefixPowers [(t0, r0)]).filter (fun kv => t0 - 30 < kv.1))
        hsort2 hfresh2 i t r hi2
      simp only [calcPowerGo]
      rw [List.getElem?_cons_succ, hpw1, hrec]
      rw [show ((t0, r0) :: rest).take (i + 1 + 1) = (t0, r0) :: rest.take (i + 1) from rfl]
      rw [prefixPowers_cons (t0, r0) (rest.take (i + 1)), ← List.append_assoc]
      rw [powerFields_prune (pw ++ prefixPowers [(t0, r0)]) (prefixPowers (rest.take (i + 1)))
        t0 t (le_of_lt ht0t) r]

theorem prefix_filter_comm (L : Store) (c w : ℚ) :
    ((prefixPowers L).filter (fun kv => c - w < kv.1)).map Prod.snd
      = (L.filter (fun p => c - w < p.1)).filterMap (fun p => Rec.get p.2 "power") := by
  induction L with
  | nil => rfl
  | cons p L ih =>
    simp only [prefixPowers] at ih ⊢
    cases hq : Rec.get p.2 "power" <;> by_cases h : c - w < p.1 <;>
      simp [List.filterMap_cons, List.filter_cons, hq, h, ih]

theorem take_keys_le (l : Store) (hl : l.Pairwise (fun a b => a.1 < b.1)) (i : Nat) (t : ℚ)
    (r : Rec) (hi : l[i]? = some (t, r)) : ∀ p ∈ l.take (i + 1), p.1 ≤ t := by
  intro p hp
  obtain ⟨j, hj, hje⟩ := List.mem_iff_getElem.1 hp
  have hjl : j < l.length := lt_of_lt_of_le hj (by simpa using List.length_take_le (i + 1) l)
  have hji : j < i + 1 := lt_of_lt_of_le hj (by simp [List.length_take])
  obtain ⟨hidx, hieq⟩ := List.getElem?_eq_some.1 hi
  rw [List.getElem_take] at hje
  rcases Nat.lt_or_ge j i with hlt | hge
  · have := List.pairwise_iff_getElem.1 hl j i hjl hidx hlt
    rw [hje, hieq] at this
    exact le_of_lt this
  · have hj_eq : j = i := Nat.le_antisymm (Nat.lt_succ_iff.1 hji) hge
    subst hj_eq
    rw [hieq] at hje
    rw [← hje]

theorem drop_keys_gt (l : Store) (hl : l.Pairwise (fun a b => a.1 < b.1)) (i : Nat) (t : ℚ)
    (r : Rec) (hi : l[i]? = some (t, r)) : ∀ p ∈ l.drop (i + 1), t < p.1 := by
  intro p hp
  obtain ⟨j, hj, hje⟩ := List.mem_iff_getElem.1 hp
  rw [List.getElem_drop] at hje
  obtain ⟨hidx, hieq⟩ := List.getElem?_eq_some.1 hi
  have hlen : i + 1 + j < l.length := by
    have := hj
    rw [List.length_drop] at this
    omega
  have := List.pairwise_iff_getElem.1 hl i (i + 1 + j) hidx hlen (by omega)
  rw [hje, hieq] at this
  exact this

theorem trailingPowers_eq_take (l : Store) (hl : l.Pairwise (fun a b => a.1 < b.1)) (i : Nat)
    (t : ℚ) (r : Rec) (hi : l[i]? = some (t, r)) (w : ℚ) :
    trailingPowers l t w
      = ((prefixPowers (l.take (i + 1))).filter (fun kv => t - w < kv.1)).map Prod.snd := by
  rw [prefix_filter_comm]
  unfold trailingPowers
  have h1 : (l.drop (i + 1)).filter
      (fun p => decide (p.1 ≤ t) && decide (t - w < p.1)) = [] := by
    rw [List.filter_eq_nil_iff]
    intro p hp
    have := drop_keys_gt l hl i t r hi p hp
    simp [not_le.2 this]
  have h2 : (l.take (i + 1)).filter (fun p => decide (p.1 ≤ t) && decide (t - w < p.1))
      = (l.take (i + 1)).filter (fun p => decide (t - w < p.1)) := by
    apply List.filter_congr
    intro p hp
    have := take_keys_le l hl i t r hi p hp
    simp [this]
  conv_lhs => rw [← List.take_append_drop (i + 1) l]
  rw [List.filter_append, h1, List.append_nil, h2]

theorem get_ite_set_ne (c : Prop) [Decidable c] (r : Rec) (w k : String) (v : ℚ)
    (h : w ≠ k) :
    Rec.get (if c then Rec.set r w v else r) k = Rec.get r k := by
  split
  · exact Rec.get_set_ne r w k v h
  · rfl

theorem powerFields_get3 (P : List (ℚ × ℚ)) (t : ℚ) (r : Rec) :
    Rec.get (powerFields P t r) "power3s"
      = (if ((P.filter (fun kv => t - 3 < kv.1)).map Prod.snd) = [] then Rec.get r "power3s"
          else some (mean ((P.filter (fun kv => t - 3 < kv.1)).map Prod.snd))) := by
  simp only [powerFields]
  rw [get_ite_set_ne _ _ _ _ _ (by decide : "power30s" ≠ "power3s"),
    get_ite_set_ne _ _ _ _ _ (by decide : "power10s" ≠ "power3s")]
  by_cases h3 : ((P.filter (fun kv => t - 3 < kv.1)).map Prod.snd) = []
  · rw [h3]
    simp
  · rw [if_neg h3, if_pos (List.length_pos.2 h3), Rec.get_set_self]

theorem powerFields_get10 (P : List (ℚ × ℚ)) (t : ℚ) (r : Rec) :
    Rec.get (powerFields P t r) "power10s"
      = (if ((P.filter (fun kv => t - 10 < kv.1)).map Prod.snd) = [] then Rec.get r "power10s"
          else some (mean ((P.filter (fun kv => t - 10 < kv.1)).map Prod.snd))) := by
  simp only [powerFields]
  rw [get_ite_set_ne _ _ _ _ _ (by decide : "power30s" ≠ "power10s")]
  by_cases h10 : ((P.filter (fun kv => t - 10 < kv.1)).map Prod.snd) = []
  · rw [h10]
    simp [get_ite_set_ne _ _ _ _ _ (by decide : "power3s" ≠ "power10s")]
  · rw [if_neg h10, if_pos (List.length_pos.2 h10), Rec.get_set_self]

theorem powerFields_get30 (P : List (ℚ × ℚ)) (t : ℚ) (r : Rec) :
    Rec.get (powerFields P t r) "power30s"
      = (if ((P.filter (fun kv => t - 30 < kv.1)).map Prod.snd) = [] then Rec.get r "power30s"
          else some (mean ((P.filter (fun kv => t - 30 < kv.1)).map Prod.snd))) := by
  simp only [powerFields]
  by_cases h30 : ((P.filter (fun kv => t - 30 < kv.1)).map Prod.snd) = []
  · rw [h30]
    simp [get_ite_set_ne _ _ _ _ _ (by decide : "power10s" ≠ "power30s"),
      get_ite_set_ne _ _ _ _ _ (by decide : "power3s" ≠ "power30s")]
  · rw [if_neg h30, if_pos (List.length_pos.2 h30), Rec.get_set_self]

/-- C4 (confirmed): after the rolling-average stage, each `powerNs` field of
a record equals the arithmetic mean of the power values in the trailing
wall-clock window ending at (and including) the record's timestamp with the
strict lower bound `member_timestamp > timestamp − N` (`trailingPowers`), and
is written exactly when that window is non-empty (otherwise the record's
prior value — absent for raw records — is preserved). -/
theorem power_rolling_window_spec (l : Store) (hl : l.Pairwise (fun a b => a.1 < b.1))
    (i : Nat) (t : ℚ) (r : Rec) (hi : l[i]? = some (t, r)) :
    ∃ r', (calculatePowerRollingAverages l)[i]? = some (t, r') ∧
      Rec.get r' "power3s" = (if trailingPowers l t 3 = [] then Rec.get r "power3s"
          else some (mean (trailingPowers l t 3))) ∧
      Rec.get r' "power10s" = (if trailingPowers l t 10 = [] then Rec.get r "power10s"
          else some (mean (trailingPowers l t 10))) ∧
      Rec.get r' "power30s" = (if trailingPowers l t 30 = [] then Rec.get r "power30s"
          else some (mean (trailingPowers l t 30))) := by
  have h := calcPowerGo_spec l [] hl (by intro kv hkv; cases hkv) i t r hi
  rw [List.nil_append] at h
  refine ⟨_, h, ?_, ?_, ?_⟩
  · rw [powerFields_get3, ← trailingPowers_eq_take l hl i t r hi 3]
  · rw [powerFields_get10, ← trailingPowers_eq_take l hl i t r hi 10]
  · rw [powerFields_get30, ← trailingPowers_eq_take l hl i t r hi 30]

/-- C4 witness: with power samples of value `10×t` at integer seconds
`t = 0..10` (`pl0`), the record at `t = 10` gets
`power3s = mean(80, 90, 100) = 90`. -/
theorem power_rolling_window_spec_witness :
    pl0.Pairwise (fun a b => a.1 < b.1) ∧
    ∃ r', (calculatePowerRollingAverages pl0)[10]? = some (10, r') ∧
      Rec.get r' "power3s" = some 90 := by
  have hp : pl0.Pairwise (fun a b => a.1 < b.1) := by with_unfolding_all decide
  have hi : pl0[10]? = some (10, [("timestamp", 10), ("power", 100)]) := by
    with_unfolding_all decide
  obtain ⟨r', h1, h2, _, _⟩ :=
    power_rolling_window_spec pl0 hp 10 10 [("timestamp", 10), ("power", 100)] hi
  refine ⟨hp, r', h1, ?_⟩
  rw [h2]
  with_unfolding_all decide

/-! ## Stage key/field preservation

Each derivation stage writes a fixed set of field names; for any other field
`k`, the `(timestamp, value-of-k)` view of the store is unchanged.  These
lemmas drive both the `track_distance` claims and pipeline idempotence. -/

theorem keyView_cons (k : String) (p : ℚ × Rec) (l : Store) :
    keyView k (p :: l) = (p.1, Rec.get p.2 k) :: keyView k l := rfl

theorem keyView_map_set (k w : String) (h : w ≠ k) (f : ℚ × Rec → ℚ) (l : Store) :
    keyView k (l.map (fun p => (p.1, Rec.set p.2 w (f p)))) = keyView k l := by
  induction l with
  | nil => rfl
  | cons p l ih =>
    rw [List.map_cons, keyView_cons, keyView_cons, ih, Rec.get_set_ne _ _ _ _ h]

theorem keyView_calculateActivityTime (k : String) (h : k ≠ "time") (l : Store) :
    keyView k (calculateActivityTime l) = keyView k l := by
  cases l with
  | nil => rfl
  | cons p l =>
    exact keyView_map_set k "time" (Ne.symm h) _ _

theorem distanceStep_get_ne (geo : ℚ → ℚ → ℚ → ℚ → ℚ) (acc : Option (ℚ × ℚ) × ℚ)
    (p : ℚ × Rec) (k : String) (h1 : k ≠ "track_distance") (h2 : k ≠ "distance") :
    Rec.get (distanceStep geo acc p).2.2 k = Rec.get p.2 k := by
  simp only [distanceStep]
  split
  · exact Rec.get_set_ne _ _ _ _ (Ne.symm h1)
  · rw [Rec.get_set_ne _ _ _ _ (Ne.symm h2), Rec.get_set_ne _ _ _ _ (Ne.symm h1)]

theorem distanceStep_fst (geo : ℚ → ℚ → ℚ → ℚ → ℚ) (acc : Option (ℚ × ℚ) × ℚ) (p : ℚ × Rec) :
    (distanceStep geo acc p).2.1 = p.1 := by
  simp [distanceStep]

theorem keyView_calcDistGo (geo : ℚ → ℚ → ℚ → ℚ → ℚ) (k : String)
    (h1 : k ≠ "track_distance") (h2 : k ≠ "distance") :
    ∀ (l : Store) (acc : Option (ℚ × ℚ) × ℚ),
      keyView k (calcDistGo geo acc l) = keyView k l := by
  intro l
  induction l with
  | nil => intro acc; rfl
  | cons p l ih =>
    intro acc
    show keyView k ((distanceStep geo acc p).2 :: calcDistGo geo (distanceStep geo acc p).1 l)
      = _
    rw [keyView_cons, keyView_cons, ih, distanceStep_get_ne geo acc p k h1 h2,
      distanceStep_fst]

theorem keyView_modify2 (k : String) (s : Store) (i : Nat) (f : Rec → Rec)
    (hf : ∀ r, Rec.get (f r) k = Rec.get r k) :
    keyView k (Store.modify2 s i f) = keyView k s := by
  induction s generalizing i with
  | nil => rfl
  | cons p s ih =>
    cases i with
    | zero =>
      show keyView k ((p.1, f p.2) :: s) = _
      rw [keyView_cons, keyView_cons, hf]
    | succ i =>
      show keyView k (p :: Store.modify2 s i f) = _
      rw [keyView_cons, keyView_cons, ih]

theorem keyView_calcSmoothGo (k : String) (h : k ≠ "smooth_altitude") :
    ∀ (fuel i : Nat) (s : Store), keyView k (calcSmoothGo fuel i s) = keyView k s := by
  intro fuel
  induction fuel with
  | zero => intro i s; rfl
  | succ fuel ih =>
    intro i s
    simp only [calcSmoothGo]
    split
    · exact ih (i + 1) s
    · split
      · rw [ih]
        exact keyView_modify2 k s i _
          (fun r => Rec.get_set_ne _ _ _ _ (Ne.symm h))
      · exact ih (i + 1) s

theorem speedUpd_get_ne (k : String) (h1 : k ≠ "track_speed") (h2 : k ≠ "speed")
    (last : Option (ℚ × ℚ)) (d tm : ℚ) (r : Rec) :
    Rec.get (speedUpd last d tm r) k = Rec.get r k := by
  simp only [speedUpd]
  split
  · split
    · split
      · exact Rec.get_set_ne _ _ _ _ (Ne.symm h1)
      · rw [Rec.get_set_ne _ _ _ _ (Ne.symm h2), Rec.get_set_ne _ _ _ _ (Ne.symm h1)]
    · rfl
  · rfl

theorem keyView_calcSpeedGo (k : String) (h1 : k ≠ "track_speed") (h2 : k ≠ "speed") :
    ∀ (l : Store) (last : Option (ℚ × ℚ)),
      keyView k (calcSpeedGo last l) = keyView k l := by
  intro l
  induction l with
  | nil => intro last; rfl
  | cons p l ih =>
    intro last
    obtain ⟨t, r⟩ := p
    simp only [calcSpeedGo]
    split
    · rw [keyView_cons, keyView_cons, ih, speedUpd_get_ne k h1 h2]
    · rw [keyView_cons, keyView_cons, ih]

theorem keyView_calcPowerGo (k : String) (h3 : k ≠ "power3s") (h10 : k ≠ "power10s")
    (h30 : k ≠ "power30s") :
    ∀ (l : Store) (pw : List (ℚ × ℚ)), keyView k (calcPowerGo pw l) = keyView k l := by
  intro l
  induction l with
  | nil => intro pw; rfl
  | cons p l ih =>
    intro pw
    obtain ⟨t, r⟩ := p
    simp only [calcPowerGo]
    rw [keyView_cons, keyView_cons, ih]
    congr 1
    congr 1
    simp only [powerFields]
    rw [get_ite_set_ne _ _ _ _ _ (Ne.symm h30), get_ite_set_ne _ _ _ _ _ (Ne.symm h10),
      get_ite_set_ne _ _ _ _ _ (Ne.symm h3)]

theorem keyView_calcGradeGo (sq : ℚ → ℚ) (k : String) (h : k ≠ "grade") :
    ∀ (fuel i : Nat) (s : Store), keyView k (calcGradeGo sq fuel i s).1 = keyView k s := by
  intro fuel
  induction fuel with
  | zero => intro i s; rfl
  | succ fuel ih =>
    intro i s
    simp only [calcGradeGo]
    cases gradeStepAt sq (s.map Prod.snd) i with
    | skip => exact ih (i + 1) s
    | raise => rfl
    | write g =>
      rw [ih]
      exact keyView_modify2 k s i _ (fun r => Rec.get_set_ne _ _ _ _ (Ne.symm h))

theorem vertUpd_get_ne (k : String) (h : k ≠ "vertical_speed")
    (last : Option (ℚ × ℚ)) (alt tm : ℚ) (r : Rec) :
    Rec.get (vertUpd last alt tm r) k = Rec.get r k := by
  simp only [vertUpd]
  split
  · rfl
  · split
    · split
      · exact Rec.get_set_ne _ _ _ _ (Ne.symm h)
      · rfl
    · rfl

theorem keyView_calcVertGo (k : String) (h : k ≠ "vertical_speed") :
    ∀ (l : Store) (last : Option (ℚ × ℚ)),
      keyView k (calcVertGo last l) = keyView k l := by
  intro l
  induction l with
  | nil => intro last; rfl
  | cons p l ih =>
    intro last
    obtain ⟨t, r⟩ := p
    simp only [calcVertGo]
    split
    · rw [keyView_cons, keyView_cons, ih, vertUpd_get_ne k h]
    · rw [keyView_cons, keyView_cons, ih]

theorem keys_of_keyView_eq (k : String) (a b : Store) (h : keyView k a = keyView k b) :
    a.map Prod.fst = b.map Prod.fst := by
  have h2 := congrArg (List.map Prod.fst) h
  simpa [keyView, List.map_map, Function.comp] using h2

/-! ## Distance-stage facts and sorted-traversal facts -/

theorem distanceStep_td (geo : ℚ → ℚ → ℚ → ℚ → ℚ) (acc : Option (ℚ × ℚ) × ℚ) (p : ℚ × Rec) :
    Rec.get (distanceStep geo acc p).2.2 "track_distance"
      = some (distanceStep geo acc p).1.2 := by
  simp only [distanceStep]
  split
  · exact Rec.get_set_self _ _ _
  · rw [Rec.get_set_ne _ _ _ _ (by decide)]
    exact Rec.get_set_self _ _ _

theorem distanceStep_mono (geo : ℚ → ℚ → ℚ → ℚ → ℚ) (hgeo : ∀ a b c d, 0 ≤ geo a b c d)
    (acc : Option (ℚ × ℚ) × ℚ) (p : ℚ × Rec) : acc.2 ≤ (distanceStep geo acc p).1.2 := by
  simp only [distanceStep]
  split
  · split
    · exact le_add_of_nonneg_right (hgeo _ _ _ _)
    · exact le_refl _
  · exact le_refl _

theorem calcDistGo_td (geo : ℚ → ℚ → ℚ → ℚ → ℚ) (hgeo : ∀ a b c d, 0 ≤ geo a b c d) :
    ∀ (l : Store) (acc : Option (ℚ × ℚ) × ℚ),
      (∀ p ∈ calcDistGo geo acc l, (Rec.get p.2 "track_distance").isSome = true) ∧
      List.Chain' (· ≤ ·)
        ((calcDistGo geo acc l).filterMap (fun p => Rec.get p.2 "track_distance")) ∧
      (∀ x ∈ (calcDistGo geo acc l).filterMap (fun p => Rec.get p.2 "track_distance"),
        acc.2 ≤ x) := by
  intro l
  induction l with
  | nil =>
    intro acc
    refine ⟨?_, List.chain'_nil, ?_⟩
    · intro p hp
      cases hp
    · intro x hx
      cases hx
  | cons p l ih =>
    intro acc
    obtain ⟨hall, hchain, hbound⟩ := ih (distanceStep geo acc p).1
    have htd := distanceStep_td geo acc p
    have hmono := distanceStep_mono geo hgeo acc p
    have hout : calcDistGo geo acc (p :: l)
        = (distanceStep geo acc p).2 :: calcDistGo geo (distanceStep geo acc p).1 l := rfl
    have hfc : List.filterMap (fun p => Rec.get p.2 "track_distance")
        ((distanceStep geo acc p).2 :: calcDistGo geo (distanceStep geo acc p).1 l)
        = (distanceStep geo acc p).1.2
          :: List.filterMap (fun p => Rec.get p.2 "track_distance")
            (calcDistGo geo (distanceStep geo acc p).1 l) := by
      simp [List.filterMap_cons, htd]
    refine ⟨?_, ?_, ?_⟩
    · intro q hq
      rw [hout] at hq
      rcases List.mem_cons.1 hq with h | h
      · rw [h, htd]
        rfl
      · exact hall q h
    · rw [hout, hfc, List.chain'_cons']
      refine ⟨?_, hchain⟩
      intro b hb
      exact hbound b (List.mem_of_mem_head? hb)
    · intro x hx
      rw [hout, hfc] at hx
      rcases List.mem_cons.1 hx with h | h
      · rw [h]
        exact hmono
      · exact le_trans hmono (hbound x h)

instance : IsTotal (ℚ × Rec) (fun a b => a.1 ≤ b.1) := ⟨fun a b => le_total a.1 b.1⟩

instance : IsTrans (ℚ × Rec) (fun a b => a.1 ≤ b.1) := ⟨fun _ _ _ h1 h2 => le_trans h1 h2⟩

theorem sortedData_sorted (s : Store) :
    (sortedData s).Pairwise (fun a b => a.1 ≤ b.1) :=
  List.sorted_insertionSort _ s

theorem sortedData_perm (s : Store) : (sortedData s).Perm s :=
  List.perm_insertionSort _ s

theorem sortedData_idem (s : Store) : sortedData (sortedData s) = sortedData s :=
  List.Sorted.insertionSort_eq (sortedData_sorted s)

theorem keyView_calculateDistance (geo : ℚ → ℚ → ℚ → ℚ → ℚ) (k : String)
    (h1 : k ≠ "track_distance") (h2 : k ≠ "distance") (l : Store) :
    keyView k (calculateDistance geo l) = keyView k l :=
  keyView_calcDistGo geo k h1 h2 l (none, 0)

theorem keyView_calculateSmoothAltitude (k : String) (h : k ≠ "smooth_altitude") (l : Store) :
    keyView k (calculateSmoothAltitude l) = keyView k l :=
  keyView_calcSmoothGo k h l.length 0 l

theorem keyView_calculateSpeed (k : String) (h1 : k ≠ "track_speed") (h2 : k ≠ "speed")
    (l : Store) : keyView k (calculateSpeed l) = keyView k l :=
  keyView_calcSpeedGo k h1 h2 l none

theorem keyView_calculatePower (k : String) (h3 : k ≠ "power3s") (h10 : k ≠ "power10s")
    (h30 : k ≠ "power30s") (l : Store) :
    keyView k (calculatePowerRollingAverages l) = keyView k l :=
  keyView_calcPowerGo k h3 h10 h30 l []

theorem keyView_calculateGrade (sq : ℚ → ℚ) (k : String) (h : k ≠ "grade") (l : Store) :
    keyView k (calculateGrade sq l).1 = keyView k l :=
  keyView_calcGradeGo sq k h l.length 0 l

theorem keyView_calculateVerticalSpeed (k : String) (h : k ≠ "vertical_speed") (l : Store) :
    keyView k (calculateVerticalSpeed l) = keyView k l :=
  keyView_calcVertGo k h l none

theorem keyView_generateCalculatedFields (geo : ℚ → ℚ → ℚ → ℚ → ℚ) (sq : ℚ → ℚ) (s : Store)
    (k : String) (h1 : k ≠ "smooth_altitude") (h2 : k ≠ "track_speed") (h3 : k ≠ "speed")
    (h4 : k ≠ "power3s") (h5 : k ≠ "power10s") (h6 : k ≠ "power30s")
    (h7 : k ≠ "grade") (h8 : k ≠ "vertical_speed") :
    keyView k (generateCalculatedFields geo sq s).1
      = keyView k (calculateDistance geo (calculateActivityTime (sortedData s))) := by
  simp only [generateCalculatedFields]
  cases hg : calculateGrade sq (calculatePowerRollingAverages (calculateSpeed
      (calculateSmoothAltitude (calculateDistance geo (calculateActivityTime (sortedData s))))))
    with
  | mk l6 err =>
    have hl6 : keyView k l6
        = keyView k (calculateDistance geo (calculateActivityTime (sortedData s))) := by
      have h := keyView_calculateGrade sq k h7 (calculatePowerRollingAverages (calculateSpeed
        (calculateSmoothAltitude (calculateDistance geo (calculateActivityTime (sortedData s))))))
      rw [hg] at h
      rw [show (l6, err).1 = l6 from rfl] at h
      rw [h, keyView_calculatePower k h4 h5 h6, keyView_calculateSpeed k h2 h3,
        keyView_calculateSmoothAltitude k h1]
    cases err
    · show keyView k (calculateVerticalSpeed l6) = _
      rw [keyView_calculateVerticalSpeed k h8]
      exact hl6
    · exact hl6

theorem vals_of_keyView (k : String) (l : Store) :
    (keyView k l).filterMap Prod.snd = l.filterMap (fun p => Rec.get p.2 k) := by
  unfold keyView
  rw [List.filterMap_map]
  rfl

theorem isSome_of_keyView (k : String) (a b : Store) (h : keyView k a = keyView k b)
    (hb : ∀ p ∈ b, (Rec.get p.2 k).isSome = true) :
    ∀ p ∈ a, (Rec.get p.2 k).isSome = true := by
  intro p hp
  have hm : (p.1, Rec.get p.2 k) ∈ keyView k a :=
    List.mem_map_of_mem (fun p => (p.1, Rec.get p.2 k)) hp
  rw [h] at hm
  obtain ⟨q, hq, he⟩ := List.mem_map.1 hm
  have he2 := congrArg Prod.snd he
  simp only at he2
  rw [← he2]
  exact hb q hq

/-- C8 (confirmed): after the derivation pipeline (for any input store and
any non-negative great-circle distance function), every record carries
`track_distance`, the sequence of `track_distance` values along the traversal
is monotonically non-decreasing, and the traversal itself is in ascending
timestamp order. -/
theorem track_distance_always_set_monotone (geo : ℚ → ℚ → ℚ → ℚ → ℚ) (sq : ℚ → ℚ)
    (hgeo : ∀ a b c d, 0 ≤ geo a b c d) (s : Store) :
    (∀ p ∈ (generateCalculatedFields geo sq s).1,
        (Rec.get p.2 "track_distance").isSome = true) ∧
    List.Chain' (· ≤ ·) ((generateCalculatedFields geo sq s).1.filterMap
        (fun p => Rec.get p.2 "track_distance")) ∧
    ((generateCalculatedFields geo sq s).1.map Prod.fst).Pairwise (· ≤ ·) := by
  have hview := keyView_generateCalculatedFields geo sq s "track_distance"
    (by decide) (by decide) (by decide) (by decide) (by decide) (by decide) (by decide)
    (by decide)
  obtain ⟨hall, hchain, _⟩ :=
    calcDistGo_td geo hgeo (calculateActivityTime (sortedData s)) (none, 0)
  refine ⟨?_, ?_, ?_⟩
  · exact isSome_of_keyView "track_distance" _ _ hview hall
  · have hv := congrArg (List.filterMap Prod.snd) hview
    rw [vals_of_keyView, vals_of_keyView] at hv
    rw [hv]
    exact hchain
  · have hkeys : (generateCalculatedFields geo sq s).1.map Prod.fst
        = (sortedData s).map Prod.fst := by
      rw [keys_of_keyView_eq _ _ _ hview,
        keys_of_keyView_eq _ _ _ (keyView_calculateDistance geo "timestamp" (by decide)
          (by decide) (calculateActivityTime (sortedData s))),
        keys_of_keyView_eq _ _ _
          (keyView_calculateActivityTime "timestamp" (by decide) (sortedData s))]
    rw [hkeys]
    exact List.Pairwise.map Prod.fst (fun a b h => h) (sortedData_sorted s)

/-- C8 witness: the theorem applied to the concrete non-negative distance
function `geo0` and the two-record store `c8s`. -/
theorem track_distance_always_set_monotone_witness :
    (∀ a b c d : ℚ, 0 ≤ geo0 a b c d) ∧
    ((∀ p ∈ (generateCalculatedFields geo0 sq0 c8s).1,
        (Rec.get p.2 "track_distance").isSome = true) ∧
    List.Chain' (· ≤ ·) ((generateCalculatedFields geo0 sq0 c8s).1.filterMap
        (fun p => Rec.get p.2 "track_distance")) ∧
    ((generateCalculatedFields geo0 sq0 c8s).1.map Prod.fst).Pairwise (· ≤ ·)) :=
  ⟨fun _ _ _ _ => le_refl 0,
    track_distance_always_set_monotone geo0 sq0 (fun _ _ _ _ => le_refl 0) c8s⟩

theorem generateCalculatedFields_keys (geo : ℚ → ℚ → ℚ → ℚ → ℚ) (sq : ℚ → ℚ) (s : Store) :
    (generateCalculatedFields geo sq s).1.map Prod.fst = (sortedData s).map Prod.fst := by
  have hview := keyView_generateCalculatedFields geo sq s "timestamp"
    (by decide) (by decide) (by decide) (by decide) (by decide) (by decide) (by decide)
    (by decide)
  rw [keys_of_keyView_eq _ _ _ hview,
    keys_of_keyView_eq _ _ _ (keyView_calculateDistance geo "timestamp" (by decide) (by decide)
      (calculateActivityTime (sortedData s))),
    keys_of_keyView_eq _ _ _
      (keyView_calculateActivityTime "timestamp" (by decide) (sortedData s))]

theorem aget_of_mem_nodup {κ β : Type} [DecidableEq κ] :
    ∀ (l : List (κ × β)), (l.map Prod.fst).Nodup → ∀ t r, (t, r) ∈ l → aget l t = some r := by
  intro l
  induction l with
  | nil =>
    intro _ t r h
    cases h
  | cons kv l ih =>
    intro hnd t r h
    simp only [List.map_cons, List.nodup_cons] at hnd
    rcases List.mem_cons.1 h with he | hm
    · rw [← he]
      simp [aget]
    · have hne : kv.1 ≠ t := by
        intro hh
        apply hnd.1
        rw [hh]
        exact List.mem_map_of_mem Prod.fst hm
      simp [aget, hne, ih hnd.2 t r hm]

theorem resupplyRaw_eq_sortedData (geo : ℚ → ℚ → ℚ → ℚ → ℚ) (sq : ℚ → ℚ) (s : Store)
    (hnd : (s.map Prod.fst).Nodup) :
    resupplyRaw (generateCalculatedFields geo sq s).1 s = sortedData s := by
  apply List.ext_getElem?
  intro j
  unfold resupplyRaw
  rw [List.getElem?_map]
  have hk := congrArg (fun l => l[j]?) (generateCalculatedFields_keys geo sq s)
  simp only [List.getElem?_map] at hk
  cases hs : (sortedData s)[j]? with
  | none =>
    rw [hs] at hk
    cases hg : (generateCalculatedFields geo sq s).1[j]? with
    | none => simp
    | some q =>
      rw [hg] at hk
      simp at hk
  | some p =>
    rw [hs] at hk
    cases hg : (generateCalculatedFields geo sq s).1[j]? with
    | none =>
      rw [hg] at hk
      simp at hk
    | some q =>
      rw [hg] at hk
      simp only [Option.map_some'] at hk
      have hq1 : q.1 = p.1 := by injection hk
      have hmem : p ∈ s := (sortedData_perm s).mem_iff.1 (List.getElem?_mem hs)
      have hget : aget s p.1 = some p.2 := aget_of_mem_nodup s hnd p.1 p.2 hmem
      simp only [Option.map_some']
      rw [hq1]
      show some (p.1, (Store.get s p.1).getD []) = some p
      rw [show Store.get s p.1 = some p.2 from hget]
      simp

/-- C9 (confirmed): the derivation pipeline is deterministic and writes only
into the record store; re-running it on an already-derived series after
re-supplying only the originally-raw fields (each timestamp of the derived
store gets back its pre-pipeline record) produces exactly the same result —
store and error flag — as the first run. -/
theorem pipeline_idempotent (geo : ℚ → ℚ → ℚ → ℚ → ℚ) (sq : ℚ → ℚ) (s : Store)
    (hnd : (s.map Prod.fst).Nodup) :
    generateCalculatedFields geo sq (resupplyRaw (generateCalculatedFields geo sq s).1 s)
      = generateCalculatedFields geo sq s := by
  rw [resupplyRaw_eq_sortedData geo sq s hnd]
  unfold generateCalculatedFields
  rw [sortedData_idem]

/-- C9 witness: the theorem applied to the concrete unsorted two-record store
`c9s` (distinct timestamps). -/
theorem pipeline_idempotent_witness :
    (c9s.map Prod.fst).Nodup ∧
    generateCalculatedFields geo0 sq0 (resupplyRaw (generateCalculatedFields geo0 sq0 c9s).1 c9s)
      = generateCalculatedFields geo0 sq0 c9s :=
  ⟨by decide, pipeline_idempotent geo0 sq0 c9s (by decide)⟩

/-- C10 witness: the theorem applied to the concrete message `m10` at `t = 3`
from a state whose cache holds a gear value (`st10`); in particular the
sample record inherits `front_gear_num` from the cache. -/
theorem sticky_forward_fill_decode_order_witness :
    m10.timestamp = some 3 ∧
    (Store.get (handleRecordMessage st10 m10).data 3).map (fun r => Rec.get r "front_gear_num")
      = some (some 2) := by
  constructor
  · rfl
  · rw [(sticky_forward_fill_decode_order st10 m10 3 rfl).2.2.1 "front_gear_num"]
    decide

end Fitt
